import Mathlib

/-!
Shallow embedding of the color-decision extraction and best-match resolution
logic of the `ayon-hiero` repository:

* `parse_cdl`, `regex_parse_edl_events`, `otio_parse_edl_events` and
  `parse_edl_events` from `client/ayon_hiero/api/lib.py`;
* `COLOR_FILE_EXTS`, `CollectColorFile.get_color_file` and
  `CollectColorFile.priority_color_file` from
  `client/ayon_hiero/plugins/publish/collect_color_file.py`.

Python text is modelled as `List Char`.  The regular expressions of the
source are hand-compiled into equivalent deterministic/backtracking matchers
(commented with the pattern they implement).  Python floats parsed from text
are kept as their source strings, since the program never computes with the
parsed values, only stores and forwards them; the `float(...)` conversion is
modelled by a validity check whose failure is an exception.  Values coming
from the third-party OpenTimelineIO adapter are modelled abstractly with `ℚ`.
`None`-or-exception outcomes are modelled with `Option`.
-/

namespace AyonHiero

abbrev Chars := List Char

/-- ASCII lower-casing of one character, written as an explicit table so that
facts such as `lowerChar c = '/' ↔ c = '/'` follow by case analysis. -/
def lowerChar (c : Char) : Char :=
  if c = 'A' then 'a' else if c = 'B' then 'b' else if c = 'C' then 'c'
  else if c = 'D' then 'd' else if c = 'E' then 'e' else if c = 'F' then 'f'
  else if c = 'G' then 'g' else if c = 'H' then 'h' else if c = 'I' then 'i'
  else if c = 'J' then 'j' else if c = 'K' then 'k' else if c = 'L' then 'l'
  else if c = 'M' then 'm' else if c = 'N' then 'n' else if c = 'O' then 'o'
  else if c = 'P' then 'p' else if c = 'Q' then 'q' else if c = 'R' then 'r'
  else if c = 'S' then 's' else if c = 'T' then 't' else if c = 'U' then 'u'
  else if c = 'V' then 'v' else if c = 'W' then 'w' else if c = 'X' then 'x'
  else if c = 'Y' then 'y' else if c = 'Z' then 'z' else c

/-- Python `str.lower()` restricted to ASCII, which is all the program feeds it. -/
def lowerChars (cs : Chars) : Chars := cs.map lowerChar

/-- Python `\d` / `str.isdigit` for ASCII. -/
def pyDigit (c : Char) : Bool := '0' ≤ c && c ≤ '9'

/-- Python `\s`: space, tab, newline, carriage return, vertical tab, form feed. -/
def pyWS (c : Char) : Bool :=
  c = ' ' || c = '\t' || c = '\n' || c = '\r' || c = '\x0b' || c = '\x0c'

/-- Python `\w` (ASCII): letters, digits and underscore. -/
def pyWord (c : Char) : Bool :=
  ('a' ≤ c && c ≤ 'z') || ('A' ≤ c && c ≤ 'Z') || pyDigit c || c = '_'

/-- ASCII letters and digits, the class `[a-zA-Z0-9]`. -/
def pyAlnum (c : Char) : Bool :=
  ('a' ≤ c && c ≤ 'z') || ('A' ≤ c && c ≤ 'Z') || pyDigit c

/-- Whether `pat` occurs at the head of `cs`. -/
def headSeq : Chars → Chars → Bool
  | [], _ => true
  | _ :: _, [] => false
  | p :: ps, c :: cs => p = c && headSeq ps cs

/-- Remainder of `cs` after a literal `pat` at its head, if present. -/
def dropSeq (pat cs : Chars) : Option Chars :=
  if headSeq pat cs then some (cs.drop pat.length) else none

/-- Python `str.endswith`. -/
def endsWithSeq (suffixPat cs : Chars) : Bool :=
  headSeq suffixPat.reverse cs.reverse

/-- Python `str.replace(pat, "")` with a nonempty `pat`: removes every
leftmost-first non-overlapping occurrence.  Fuel-driven scan. -/
def removeAllAux (pat : Chars) : Nat → Chars → Chars
  | 0, cs => cs
  | _ + 1, [] => []
  | fuel + 1, c :: cs =>
    if headSeq pat (c :: cs) then
      removeAllAux pat fuel ((c :: cs).drop pat.length)
    else
      c :: removeAllAux pat fuel cs

def removeAll (cs pat : Chars) : Chars := removeAllAux pat cs.length cs

/-- Python `str.split(sep, 1)[0]` for a one-character separator: the text
before the first occurrence, or the whole string. -/
def beforeFirst (sep : Char) (cs : Chars) : Chars := cs.takeWhile (· ≠ sep)

/-- Python `str.split(sep)[0]` for a multi-character separator `sep`:
the text before the first occurrence of `sep`, or the whole string. -/
def beforeFirstSeq : Chars → Chars → Chars
  | _, [] => []
  | sep, c :: cs =>
    if headSeq sep (c :: cs) then [] else c :: beforeFirstSeq sep cs

/-- `os.path.basename` for POSIX paths: the part after the last `/`. -/
def basenameChars (cs : Chars) : Chars :=
  ((cs.reverse).takeWhile (· ≠ '/')).reverse

/-- `os.path.dirname` for POSIX paths: everything before the last `/`
(and the empty string when there is no `/`). -/
def dirnameChars (cs : Chars) : Chars :=
  match (cs.reverse).dropWhile (· ≠ '/') with
  | [] => []
  | _ :: rest => rest.reverse

/-- `os.path.splitext(...)[0]` on a basename: drop the extension at the last
dot, except that a basename consisting only of leading dots before that dot
keeps it (CPython skips leading dots when looking for the extension). -/
def splitextStemOfBase (b : Chars) : Chars :=
  match (b.reverse).drop ((b.reverse).takeWhile (· ≠ '.')).length with
  | [] => b
  | _ :: beforeDot =>
    -- a dot was found; it only counts as an extension separator when some
    -- character before it is not a dot
    if beforeDot.reverse.any (· ≠ '.') then beforeDot.reverse else b

/-- Python `int(s)`: optional surrounding whitespace, optional sign, decimal
digits.  (PEP 515 underscore grouping is not modelled.)  `none` is the
`ValueError` exception. -/
def pyInt (cs : Chars) : Option Int :=
  let t := ((cs.dropWhile pyWS).reverse.dropWhile pyWS).reverse
  let (neg, ds) :=
    match t with
    | '-' :: rest => (true, rest)
    | '+' :: rest => (false, rest)
    | _ => (false, t)
  if ds ≠ [] && ds.all pyDigit then
    let n := ds.foldl (fun acc c => 10 * acc + (c.toNat - '0'.toNat)) 0
    some (if neg then -(n : Int) else (n : Int))
  else
    none

def digitChar10 (d : Nat) : Char :=
  if d = 0 then '0' else if d = 1 then '1' else if d = 2 then '2'
  else if d = 3 then '3' else if d = 4 then '4' else if d = 5 then '5'
  else if d = 6 then '6' else if d = 7 then '7' else if d = 8 then '8' else '9'

/-- Decimal rendering of a natural number, most significant digit first
(fueled structural recursion). -/
def natCharsAux : Nat → Nat → Chars
  | 0, _ => []
  | fuel + 1, n =>
    if n < 10 then [digitChar10 n]
    else natCharsAux fuel (n / 10) ++ [digitChar10 (n % 10)]

/-- Decimal rendering of a natural number, for Python `str(int(...))`. -/
def natChars (n : Nat) : Chars := natCharsAux (n + 1) n

/-- Python `str` of an `int`. -/
def intChars (n : Int) : Chars :=
  if n < 0 then '-' :: natChars n.natAbs else natChars n.natAbs

/-- Python `float(s)` restricted to the character class `[-,\d,.]` that the
CDL regex groups can produce: valid iff an optional leading `-` is followed
by digits with at most one dot and at least one digit (so `""`, `"-"`,
`"1,2"`, `"1.2.3"`, `"--1"` all raise `ValueError`). -/
def pyFloatValid (cs : Chars) : Bool :=
  let body := match cs with
    | '-' :: rest => rest
    | _ => cs
  let ip := body.takeWhile pyDigit
  let rest := body.drop ip.length
  match rest with
  | [] => ip ≠ []
  | '.' :: fp => (ip ≠ [] || fp ≠ []) && fp.all pyDigit
  | _ => false

end AyonHiero

namespace AyonHiero

/-! ### `parse_cdl` (lib.py)

`parse_cdl` lower-cases the file text and searches it with
`r"<slope>(?P<sR>[-,\d,.]*)[ ]{1}(?P<sG>[-,\d,.]+)[ ]{1}(?P<sB>[-,\d,.]*)</slope>"`
(and the analogous `offset`/`power` patterns) and
`r"<saturation\>(?P<sat>[-,\d,.]+)</saturation\>"`.
The groups draw from the class `[-,\d,.]`, which cannot contain `<`, `/`
or a space, so greedy matching with backtracking reduces to: maximal class
runs separated by single spaces, directly followed by the closing tag. -/

/-- The regex character class `[-,\d,.]`. -/
def cdlNumClass (c : Char) : Bool := c = '-' || c = ',' || pyDigit c || c = '.'

/-- Attempt one `<tag>A B C</tag>` triple match at the head of `cs`
(`A`,`C` possibly empty, `B` nonempty, each a maximal `[-,\d,.]` run). -/
def cdlTripleAt (openTag closeTag cs : Chars) : Option (Chars × Chars × Chars) := do
  let r1 ← dropSeq openTag cs
  let a := r1.takeWhile cdlNumClass
  let r2 := r1.drop a.length
  let r3 ← match r2 with
    | ' ' :: rest => some rest
    | _ => none
  let b := r3.takeWhile cdlNumClass
  if b = [] then none else
  let r4 := r3.drop b.length
  let r5 ← match r4 with
    | ' ' :: rest => some rest
    | _ => none
  let c := r5.takeWhile cdlNumClass
  let r6 := r5.drop c.length
  let _ ← dropSeq closeTag r6
  some (a, b, c)

/-- `re.search` for the triple pattern: leftmost successful position. -/
def cdlTripleSearch (openTag closeTag : Chars) : Chars → Option (Chars × Chars × Chars)
  | [] => none
  | c :: cs =>
    match cdlTripleAt openTag closeTag (c :: cs) with
    | some g => some g
    | none => cdlTripleSearch openTag closeTag cs

/-- Attempt one `<saturation>S</saturation>` match at the head of `cs`. -/
def cdlSatAt (cs : Chars) : Option Chars := do
  let r1 ← dropSeq "<saturation>".toList cs
  let s := r1.takeWhile cdlNumClass
  if s = [] then none else
  let r2 := r1.drop s.length
  let _ ← dropSeq "</saturation>".toList r2
  some s

def cdlSatSearch : Chars → Option Chars
  | [] => none
  | c :: cs =>
    match cdlSatAt (c :: cs) with
    | some g => some g
    | none => cdlSatSearch cs

/-- Result dictionary of `parse_cdl`.  Parsed floats are carried as their
source strings (the program only stores them); each field is `none` when its
pattern did not match. -/
structure CdlResult where
  slope : Option (String × String × String)
  offset : Option (String × String × String)
  power : Option (String × String × String)
  sat : Option String
  file : String
deriving DecidableEq, Repr

/-- Validate the three groups of a matched triple as Python `float`
arguments; `none` models the `ValueError` raised by `tuple(map(float, ...))`. -/
def floatTriple : Option (Chars × Chars × Chars) →
    Option (Option (String × String × String))
  | none => some none
  | some (a, b, c) =>
    if pyFloatValid a && pyFloatValid b && pyFloatValid c then
      some (some (⟨a⟩, ⟨b⟩, ⟨c⟩))
    else
      none

/-- `parse_cdl` of lib.py over the file's text (`path` only fills the `file`
field).  `none` is an uncaught exception (`float` conversion failure). -/
def parse_cdl (content : Chars) (path : String) : Option CdlResult := do
  let cdl_data := lowerChars content
  let slope ← floatTriple (cdlTripleSearch "<slope>".toList "</slope>".toList cdl_data)
  let offset ← floatTriple (cdlTripleSearch "<offset>".toList "</offset>".toList cdl_data)
  let power ← floatTriple (cdlTripleSearch "<power>".toList "</power>".toList cdl_data)
  let sat ← match cdlSatSearch cdl_data with
    | none => some none
    | some s => if pyFloatValid s then some (some (⟨s⟩ : String)) else none
  some ⟨slope, offset, power, sat, path⟩

end AyonHiero

namespace AyonHiero

/-! ### `regex_parse_edl_events` (lib.py)

Patterns compiled below:

* `edit_pattern = r"(?<=[\n\r])(?P<edit>\d+\s+[\s\S]*?)(?=([\n\r]+\d+)|\Z)"`
* `sop_pattern  = r"[*]\s?ASC[_]SOP\s+[(]\s?(num)\s+(num)\s+(num)\s?[)]\s?[(]..."`
  with `num = [-]?\d+[.]\d{4,6}`
* `sat_pattern  = r"[*]\s?ASC_SAT\s+(?P<sat>\d+[.]*\d*)"`
* `tape_pattern = r"\d+\s*(?P<source>[\S]*)(?=\s*)"`
* `clip_name_pattern = r"[*]\s?FROM[ ]*CLIP[ ]*NAME:\s*(?P<clip_name>.+)"`
* `loc_pattern  = r"[*]\s?LOC:\s?.+\b(?<!_)(?P<LOC>[\w]{3,4}_((?<=_)[\w]{3,4}_){1,2}[\w]{3,4}(?<!_)(_[\w]{1,}){0,})\b"`
-/

def isNL (c : Char) : Bool := c = '\n' || c = '\r'

/-- The lookahead `([\n\r]+\d+)|\Z`: end of text, or one-or-more newline
characters followed directly by a digit. -/
def editEndHere (rest : Chars) : Bool :=
  match rest with
  | [] => true
  | c :: _ =>
    isNL c &&
      (match rest.dropWhile isNL with
       | d :: _ => pyDigit d
       | [] => false)

/-- Minimal extension of the lazy `[\s\S]*?` until `editEndHere` holds
(it always holds at the end of text). -/
def lazyExtent : Chars → Chars × Chars
  | [] => ([], [])
  | c :: cs =>
    if editEndHere (c :: cs) then ([], c :: cs)
    else
      let (e, rem) := lazyExtent cs
      (c :: e, rem)

/-- One edit-block match attempt at the head of `cs` (which is known to be
preceded by a newline): greedy `\d+`, greedy `\s+`, then the lazy tail. -/
def tryBlock (cs : Chars) : Option (Chars × Chars) :=
  let ds := cs.takeWhile pyDigit
  if ds = [] then none else
  let r1 := cs.drop ds.length
  let ws := r1.takeWhile pyWS
  if ws = [] then none else
  let r2 := r1.drop ws.length
  let (ext, rem) := lazyExtent r2
  some (ds ++ ws ++ ext, rem)

/-- `re.finditer(edit_pattern, ...)`: scan left to right; a match may only
start right after a newline character; resume after each match. -/
def findEditsAux : Nat → Bool → Chars → List Chars
  | 0, _, _ => []
  | _ + 1, _, [] => []
  | fuel + 1, prevNL, c :: cs =>
    if prevNL then
      match tryBlock (c :: cs) with
      | some (b, rem) => b :: findEditsAux fuel (isNL (b.getLastD ' ')) rem
      | none => findEditsAux fuel (isNL c) cs
    else
      findEditsAux fuel (isNL c) cs

def findEdits (cs : Chars) : List Chars := findEditsAux (cs.length + 1) false cs

/-- Consume the optional single whitespace of `\s?` when the following
pattern element cannot itself begin with whitespace (deterministic). -/
def skipOptWS (cs : Chars) : Chars :=
  match cs with
  | c :: rest => if pyWS c then rest else cs
  | [] => []

/-- Mandatory whitespace `\s+` (maximal; the following element can never
consume whitespace, so no backtracking arises). -/
def wsPlus (cs : Chars) : Option Chars :=
  let ws := cs.takeWhile pyWS
  if ws = [] then none else some (cs.drop ws.length)

/-- A SOP number `[-]?\d+[.]\d{4,6}`: the fractional digit run is maximal and
the element after it can never absorb a digit, so the run's length must fall
in `[4,6]`. -/
def sopNum (cs : Chars) : Option (Chars × Chars) :=
  let (sgn, r0) :=
    match cs with
    | '-' :: rest => (['-'], rest)
    | _ => (([] : Chars), cs)
  let ip := r0.takeWhile pyDigit
  if ip = [] then none else
  match r0.drop ip.length with
  | '.' :: r1 =>
    let fp := r1.takeWhile pyDigit
    if 4 ≤ fp.length && fp.length ≤ 6 then
      some (sgn ++ ip ++ '.' :: fp, r1.drop fp.length)
    else none
  | _ => none

/-- One parenthesized triple `[(]\s?num\s+num\s+num\s?[)]`. -/
def sopParen (cs : Chars) : Option ((Chars × Chars × Chars) × Chars) := do
  let r1 ← dropSeq ['('] cs
  let (n1, r2) ← sopNum (skipOptWS r1)
  let r3 ← wsPlus r2
  let (n2, r4) ← sopNum r3
  let r5 ← wsPlus r4
  let (n3, r6) ← sopNum r5
  let r7 ← dropSeq [')'] (skipOptWS r6)
  some ((n1, n2, n3), r7)

/-- One `sop_pattern` match attempt at the head of `cs`. -/
def sopAt (cs : Chars) :
    Option ((Chars × Chars × Chars) × (Chars × Chars × Chars) × (Chars × Chars × Chars)) := do
  let r1 ← dropSeq ['*'] cs
  let r2 ← dropSeq "ASC_SOP".toList (skipOptWS r1)
  let r3 ← wsPlus r2
  let (t1, r4) ← sopParen r3
  let (t2, r5) ← sopParen (skipOptWS r4)
  let (t3, _) ← sopParen (skipOptWS r5)
  some (t1, t2, t3)

def sopSearch : Chars → Option ((Chars × Chars × Chars) × (Chars × Chars × Chars) × (Chars × Chars × Chars))
  | [] => none
  | c :: cs =>
    match sopAt (c :: cs) with
    | some g => some g
    | none => sopSearch cs

/-- One `sat_pattern` match attempt: the group `\d+[.]*\d*` is three maximal
runs with nothing after them in the pattern. -/
def satAt (cs : Chars) : Option Chars := do
  let r1 ← dropSeq ['*'] cs
  let r2 ← dropSeq "ASC_SAT".toList (skipOptWS r1)
  let r3 ← wsPlus r2
  let d1 := r3.takeWhile pyDigit
  if d1 = [] then none else
  let r4 := r3.drop d1.length
  let dots := r4.takeWhile (· = '.')
  let r5 := r4.drop dots.length
  let d2 := r5.takeWhile pyDigit
  some (d1 ++ dots ++ d2)

def satSearch : Chars → Option Chars
  | [] => none
  | c :: cs =>
    match satAt (c :: cs) with
    | some g => some g
    | none => satSearch cs

/-- One `tape_pattern` match attempt (the lookahead `(?=\s*)` always holds):
digits, optional whitespace, then a maximal non-whitespace run. -/
def tapeAt (cs : Chars) : Option Chars :=
  let ds := cs.takeWhile pyDigit
  if ds = [] then none else
  let r1 := (cs.drop ds.length).dropWhile pyWS
  some (r1.takeWhile (fun c => !pyWS c))

def tapeSearch : Chars → Option Chars
  | [] => none
  | c :: cs =>
    match tapeAt (c :: cs) with
    | some g => some g
    | none => tapeSearch cs

/-- Backtracking tail of `clip_name_pattern` when `\s*` reaches the end of
text: the engine shrinks `\s*` to the last non-`\n` whitespace character and
`.+` then matches exactly that one character (everything after it is `\n`). -/
def clipFromWS (w : Chars) : Option Chars :=
  match w.reverse.dropWhile (· = '\n') with
  | [] => none
  | c :: _ => some [c]

/-- One `clip_name_pattern` match attempt at the head of `cs`. -/
def clipAt (cs : Chars) : Option Chars := do
  let r1 ← dropSeq ['*'] cs
  let r2 ← dropSeq "FROM".toList (skipOptWS r1)
  let r3 ← dropSeq "CLIP".toList (r2.dropWhile (· = ' '))
  let r4 ← dropSeq "NAME:".toList (r3.dropWhile (· = ' '))
  let w := r4.takeWhile pyWS
  match r4.drop w.length with
  | [] => clipFromWS w
  | c :: rest => some (c :: rest.takeWhile (· ≠ '\n'))

def clipSearch : Chars → Option Chars
  | [] => none
  | c :: cs =>
    match clipAt (c :: cs) with
    | some g => some g
    | none => clipSearch cs

/-- First success of `f` over a list of alternatives in order. -/
def firstSome {α β : Type} (f : α → Option β) : List α → Option β
  | [] => none
  | x :: xs =>
    match f x with
    | some b => some b
    | none => firstSome f xs

/-- Greedy alternatives of `[wc]{3,4}`: four characters first, then three. -/
def take4or3 (wc : Char → Bool) (cs : Chars) : List (Chars × Chars) :=
  (if (cs.take 4).length = 4 && (cs.take 4).all wc then [(cs.take 4, cs.drop 4)] else []) ++
  (if (cs.take 3).length = 3 && (cs.take 3).all wc then [(cs.take 3, cs.drop 3)] else [])

/-- Greedy star `(_[wc]+){0,}` followed by the `after` check, with full
backtracking (more iterations first, longer `[wc]+` first).  Returns the
consumed characters.  Fueled recursion (each iteration consumes two or more
characters). -/
def starSuffix (wc : Char → Bool) (after : Chars → Bool) : Nat → Chars → Option Chars
  | 0, cs => if after cs then some [] else none
  | fuel + 1, cs =>
    let viaIter : Option Chars :=
      match cs with
      | '_' :: r1 =>
        let run := r1.takeWhile wc
        firstSome
          (fun j =>
            if 1 ≤ j && j ≤ run.length then
              (starSuffix wc after fuel (r1.drop j)).map
                (fun tail => '_' :: (r1.take j ++ tail))
            else none)
          ((List.range (run.length + 1)).reverse)
      | _ => none
    match viaIter with
    | some res => some res
    | none => if after cs then some [] else none

/-- The token core
`[wc]{3,4}_((?<=_)[wc]{3,4}_){1,2}[wc]{3,4}(?<!_)(_[wc]{1,}){0,}` followed by
the `after` check, as a depth-first backtracking matcher in the engine's
order.  The `(?<=_)` lookbehind always holds (each iteration follows a
literal underscore); the `(?<!_)` after the third group is checked on its
last character. -/
def tokenMatch (wc : Char → Bool) (after : Chars → Bool) (cs : Chars) : Option Chars :=
  firstSome
    (fun g1s =>
      match g1s.2 with
      | '_' :: s2 =>
        let iterCands : List (Chars × Chars) :=
          (take4or3 wc s2).flatMap
            (fun asa =>
              match asa.2 with
              | '_' :: sb =>
                ((take4or3 wc sb).filterMap
                  (fun bsc =>
                    match bsc.2 with
                    | '_' :: sd => some (asa.1 ++ '_' :: bsc.1 ++ ['_'], sd)
                    | _ => none)) ++ [(asa.1 ++ ['_'], sb)]
              | _ => [])
        firstSome
          (fun its3 =>
            firstSome
              (fun g3s4 =>
                match g3s4.1.getLast? with
                | some c =>
                  if c ≠ '_' then
                    (starSuffix wc after g3s4.2.length g3s4.2).map
                      (fun st => g1s.1 ++ '_' :: its3.1 ++ g3s4.1 ++ st)
                  else none
                | none => none)
              (take4or3 wc its3.2))
          iterCands
      | _ => none)
    (take4or3 wc cs)

/-- Word-boundary check after the LOC token: the previous character is always
a word character, so the boundary holds iff the next character is absent or
is a non-word character. -/
def locTokenAfter (rest : Chars) : Bool :=
  match rest with
  | [] => true
  | c :: _ => !pyWord c

/-- The `.+\b(?<!_)TOKEN\b` tail of `loc_pattern` at position `r`: `.` cannot
cross a newline, `.+` is greedy (longest first), and `\b` together with the
token's leading word character forces the character before the token to be a
non-word character (which also subsumes `(?<!_)`). -/
def dotPlusLocSearch (r : Chars) : Option Chars :=
  let lineLen := (r.takeWhile (· ≠ '\n')).length
  firstSome
    (fun k =>
      if 1 ≤ k && k ≤ lineLen then
        match (r.take k).getLast? with
        | some c => if !pyWord c then tokenMatch pyWord locTokenAfter (r.drop k) else none
        | none => none
      else none)
    ((List.range (lineLen + 1)).reverse)

/-- One `loc_pattern` match attempt at the head of `cs`.  The second `\s?`
genuinely backtracks: first with the whitespace consumed, then without. -/
def locAt (cs : Chars) : Option Chars := do
  let r1 ← dropSeq ['*'] cs
  let r2 ← dropSeq "LOC:".toList (skipOptWS r1)
  let withWS : Option Chars :=
    match r2 with
    | c :: rest => if pyWS c then dotPlusLocSearch rest else none
    | [] => none
  match withWS with
  | some g => some g
  | none => dotPlusLocSearch r2

def locSearch : Chars → Option Chars
  | [] => none
  | c :: cs =>
    match locAt (c :: cs) with
    | some g => some g
    | none => locSearch cs

end AyonHiero

namespace AyonHiero

/-! ### Event data model

An events dictionary entry either carries the four color keys
(`slope`/`offset`/`power`/`sat`) or carries none of them; `Option EdlColor`
models that.  A number is the text it was `float`-parsed from (regex parser)
or an abstract adapter value in `ℚ` (OTIO parser; also the plain default
`1` of the regex parser's missing-`ASC_SAT` branch). -/

inductive PyNum where
  | s (v : String)
  | q (v : ℚ)
deriving DecidableEq, Repr

abbrev NumTriple := PyNum × PyNum × PyNum

structure EdlColor where
  slope : NumTriple
  offset : NumTriple
  power : NumTriple
  sat : PyNum
deriving DecidableEq, Repr

structure EdlEvent where
  tape : String
  clip_name : String
  loc : String
  color : Option EdlColor
deriving DecidableEq, Repr

structure Edl where
  events : List (String × EdlEvent)
  first_entry : Int
  last_entry : Int
deriving DecidableEq, Repr

/-- Python dict insertion: replace in place if the key exists, else append. -/
def dictInsert (k : String) (v : EdlEvent) : List (String × EdlEvent) → List (String × EdlEvent)
  | [] => [(k, v)]
  | (k', v') :: rest => if k' = k then (k, v) :: rest else (k', v') :: dictInsert k v rest

def dictLookup (k : String) : List (String × EdlEvent) → Option EdlEvent
  | [] => none
  | (k', v') :: rest => if k' = k then some v' else dictLookup k rest

/-! ### Assembling `regex_parse_edl_events` -/

def strOfChars (cs : Chars) : String := ⟨cs⟩

def numTripleOfChars (t : Chars × Chars × Chars) : NumTriple :=
  (.s (strOfChars t.1), .s (strOfChars t.2.1), .s (strOfChars t.2.2))

/-- Color data of one edit block: present iff `sop_pattern` matches; the
saturation is the matched `ASC_SAT` text, defaulting to the number `1`. -/
def blockColor (b : Chars) : Option EdlColor :=
  (sopSearch b).map fun t =>
    { slope := numTripleOfChars t.1
      offset := numTripleOfChars t.2.1
      power := numTripleOfChars t.2.2
      sat :=
        match satSearch b with
        | some s => .s (strOfChars s)
        | none => .q 1 }

/-- Tape, clip-name and LOC fields of one edit block (empty string when the
pattern finds no match). -/
def blockTape (b : Chars) : String := strOfChars ((tapeSearch b).getD [])
def blockClip (b : Chars) : String := strOfChars ((clipSearch b).getD [])
def blockLoc (b : Chars) : String := strOfChars ((locSearch b).getD [])

/-- `str(int(edit_value.split(" ", 1)[0]))`, the normalized events key;
`none` is the `ValueError` of `int`. -/
def blockKey (b : Chars) : Option String :=
  (pyInt (beforeFirst ' ' b)).map fun n => strOfChars (intChars n)

def blockEvent (b : Chars) : EdlEvent :=
  { tape := blockTape b, clip_name := blockClip b, loc := blockLoc b
    color := blockColor b }

/-- The per-block loop body of `regex_parse_edl_events`. -/
def buildEvents (colorOnly : Bool) :
    List Chars → List (String × EdlEvent) → Option (List (String × EdlEvent))
  | [], acc => some acc
  | b :: bs, acc =>
    match blockKey b with
    | none => none
    | some k =>
      match blockColor b with
      | some _ => buildEvents colorOnly bs (dictInsert k (blockEvent b) acc)
      | none =>
        if colorOnly then buildEvents colorOnly bs acc
        else buildEvents colorOnly bs (dictInsert k (blockEvent b) acc)

/-- `regex_parse_edl_events` of lib.py.  `none` is an uncaught exception:
either an `int` conversion failure, or the `NameError` on `edit_value` at
the `last_entry` line when the file contains no edit match at all. -/
def regex_parse_edl_events (text : Chars) (color_edits_only : Bool) : Option Edl :=
  match findEdits text with
  | [] => none
  | b0 :: rest =>
    match pyInt (beforeFirst ' ' b0) with
    | none => none
    | some fe =>
      match buildEvents color_edits_only (b0 :: rest) [] with
      | none => none
      | some evs =>
        match pyInt (beforeFirst ' ' ((b0 :: rest).getLast (List.cons_ne_nil b0 rest))) with
        | none => none
        | some le => some { events := evs, first_entry := fe, last_entry := le }

/-! ### `otio_parse_edl_events` (lib.py)

The OpenTimelineIO adapter is third-party code; its output is modelled as an
abstract timeline: tracks of items, where a clip item carries the fields the
function reads (`name`, optional `cdl` metadata with `asc_sop` triples and
optional `asc_sat`, marker names, and the `cmx_3600` reel).  The
`shot_pattern` used on markers is, as written in the source, the
concatenation of a raw string and a plain string, so its final `"\b"` is the
literal backspace character `U+0008` rather than a word boundary. -/

structure OtioCdl where
  slope : ℚ × ℚ × ℚ
  offset : ℚ × ℚ × ℚ
  power : ℚ × ℚ × ℚ
  asc_sat : Option ℚ
deriving DecidableEq

structure OtioClip where
  name : String
  cdl : Option OtioCdl
  markers : List String
  /-- `metadata["cmx_3600"]["reel"]` when present (both the missing-metadata
  and missing-key cases collapse to the empty tape name). -/
  reel : Option String
deriving DecidableEq

inductive OtioItem where
  | clip (c : OtioClip)
  | other
deriving DecidableEq

structure OtioTimeline where
  tracks : List (List OtioItem)
deriving DecidableEq

/-- Trailing element of `shot_pattern`: the literal backspace character. -/
def shotTokenAfter (rest : Chars) : Bool :=
  match rest with
  | c :: _ => c = '\x08'
  | [] => false

/-- `re.search(shot_pattern, ...)`: scan left to right, `(?<!_)` on the
character before the match, token over `[a-zA-Z0-9]`, then the literal
backspace. -/
def shotSearchAux : Option Char → Chars → Option Chars
  | _, [] => none
  | prev, c :: cs =>
    match (if prev ≠ some '_' then tokenMatch pyAlnum shotTokenAfter (c :: cs) else none) with
    | some g => some g
    | none => shotSearchAux (some c) cs

def shotSearch (cs : Chars) : Option Chars := shotSearchAux none cs

/-- `" ".join([" "] + [m.name for m in clip.markers])`. -/
def joinMarkers (markers : List String) : Chars :=
  List.intercalate " ".toList (([" "] ++ markers).map String.toList)

/-- Python truthiness-based `cdl.get("asc_sat") or 1.0`. -/
def ascSatOrOne : Option ℚ → ℚ
  | none => 1
  | some v => if v = 0 then 1 else v

def otioColor (c : OtioCdl) : EdlColor :=
  { slope := (.q c.slope.1, .q c.slope.2.1, .q c.slope.2.2)
    offset := (.q c.offset.1, .q c.offset.2.1, .q c.offset.2.2)
    power := (.q c.power.1, .q c.power.2.1, .q c.power.2.2)
    sat := .q (ascSatOrOne c.asc_sat) }

def otioClipEvent (c : OtioClip) : EdlEvent :=
  { tape := c.reel.getD ""
    clip_name := c.name
    loc :=
      if c.markers ≠ [] then
        strOfChars ((shotSearch (joinMarkers c.markers)).getD [])
      else ""
    color := c.cdl.map otioColor }

/-- The per-clip loop of `otio_parse_edl_events`: non-clip children are
skipped without numbering; a colorless clip is numbered but dropped when
`color_edits_only`. -/
def otioBuild (colorOnly : Bool) :
    List OtioItem → Nat → List (String × EdlEvent) → Nat × List (String × EdlEvent)
  | [], n, acc => (n, acc)
  | .other :: items, n, acc => otioBuild colorOnly items n acc
  | .clip c :: items, n, acc =>
    let n' := n + 1
    if c.cdl.isNone && colorOnly then
      otioBuild colorOnly items n' acc
    else
      otioBuild colorOnly items n' (dictInsert (strOfChars (natChars n')) (otioClipEvent c) acc)

/-- `otio_parse_edl_events` of lib.py over the abstract timeline.  `none` is
an exception: the explicit raise on more than one track, or the `IndexError`
of `timeline.tracks[0]` on an empty timeline. -/
def otio_parse_edl_events (tl : OtioTimeline) (color_edits_only : Bool) : Option Edl :=
  match tl.tracks with
  | [track] =>
    let (n, evs) := otioBuild color_edits_only track 0 []
    some { events := evs, first_entry := 1, last_entry := (n : Int) }
  | _ => none

/-! ### `parse_edl_events` (lib.py) -/

/-- Outcome of `otio.adapters.read_from_file` (third-party): a
`UnicodeDecodeError` on undecodable file contents, some other failure, or a
parsed timeline. -/
inductive OtioOutcome where
  | unicodeError
  | otherError
  | ok (tl : OtioTimeline)
deriving DecidableEq

/-- `parse_edl_events` of lib.py.  The file is given by the adapter's
outcome on it together with its text (`none` when it cannot be decoded).
The result `none` is the Python sentinel `False`. -/
def parse_edl_events (adapter : OtioOutcome) (content : Option Chars)
    (color_edits_only : Bool) : Option Edl :=
  match adapter with
  | .unicodeError => none
  | .otherError =>
    match content with
    | none => none
    | some t => regex_parse_edl_events t color_edits_only
  | .ok tl =>
    match otio_parse_edl_events tl color_edits_only with
    | some edl => some edl
    | none =>
      match content with
      | none => none
      | some t => regex_parse_edl_events t color_edits_only

end AyonHiero

namespace AyonHiero

/-! ### Stable sorting (Python `sorted`)

Python's `sorted` is a stable ascending sort; a stable sort's output is
uniquely determined by the ordering, so an insertion sort that puts a new
element before the first existing element it is `le`-related to-or-below
models it exactly (elements are inserted from the right, so a new element
precedes equals that came later in the original list). -/

def insertStableBy {α : Type} (le : α → α → Bool) (x : α) : List α → List α
  | [] => [x]
  | y :: ys => if le x y then x :: y :: ys else y :: insertStableBy le x ys

def pySortBy {α : Type} (le : α → α → Bool) : List α → List α
  | [] => []
  | x :: xs => insertStableBy le x (pySortBy le xs)

/-- First element attaining the minimum under `le` (the element a stable
ascending sort brings to the front). -/
def firstMinBy {α : Type} (le : α → α → Bool) : List α → Option α
  | [] => none
  | x :: xs =>
    match firstMinBy le xs with
    | none => some x
    | some m => if le x m then some x else some m

/-- Python `<` on strings: lexicographic comparison by code point. -/
def lexLt : Chars → Chars → Bool
  | [], [] => false
  | [], _ :: _ => true
  | _ :: _, [] => false
  | a :: as', b :: bs => a < b || (a = b && lexLt as' bs)

def strLexLe (a b : String) : Bool := a = b || lexLt a.toList b.toList

/-! ### `collect_color_file.py`: extension registry and the matcher -/

def LUTS_3D : List String := ["cube", "3dl", "csp", "lut"]

def LUTS_2D : List String := ["ccc", "cc", "cdl"]

/-- `COLOR_FILE_EXTS = LUTS_2D + LUTS_3D + ["edl"]`. -/
def COLOR_FILE_EXTS : List String := LUTS_2D ++ LUTS_3D ++ ["edl"]

/-- The `cdl` payload of a match tuple: for a non-EDL candidate the
`parse_cdl` dictionary, for an EDL candidate the dictionary built from the
event's color keys. -/
inductive CdlInfo where
  | fromFile (c : CdlResult)
  | fromEvent (slope offset power : NumTriple) (sat : PyNum)
deriving DecidableEq

/-- One `(priority, cdl, color_file)` tuple appended to `matches`. -/
structure MatchEntry where
  priority : Nat
  cdl : CdlInfo
  path : String
deriving DecidableEq

/-- The guarded `_ccc`/`_cc`/`_cdl` stripping applied to the lowered source
name and, symmetrically, to a candidate's lowered stem: only when the string
ends with one of the suffixes, and then `str.replace` removes every
occurrence of each pattern in turn. -/
def stripColorSuffix (cs : Chars) : Chars :=
  if endsWithSeq "_ccc".toList cs || endsWithSeq "_cc".toList cs ||
      endsWithSeq "_cdl".toList cs then
    removeAll (removeAll (removeAll cs "_ccc".toList) "_cc".toList) "_cdl".toList
  else cs

/-- Name-match priority of a non-EDL candidate stem (already lowered):
`0` for the lowered source name, `8` for the raw item name, `4` for the
de-suffixed source name against the de-suffixed stem. -/
def nonEdlBasePriority (item_name src_l src_nc stem_l : Chars) : Option Nat :=
  if src_l = stem_l then some 0
  else if item_name = stem_l then some 8
  else if src_nc = stripColorSuffix stem_l then some 4
  else none

/-- The type offset: `cc` +0, `ccc` +1, `cdl` +3 (everything else unchanged). -/
def extOffset (ext : String) : Nat :=
  if ext = "cc" then 0 else if ext = "ccc" then 1 else if ext = "cdl" then 3 else 0

/-- Lowered extension-free basename of a candidate path. -/
def candidateStem (f : String) : Chars :=
  lowerChars (splitextStemOfBase (basenameChars f.toList))

/-- Contribution of one non-EDL candidate file to `matches`.  `parse_cdl` is
abstracted as `path ↦ Option CdlResult` (reading and parsing the file);
`none` there is an exception, which the matcher does not catch. -/
def matchNonEdl (parseCdlFile : String → Option CdlResult) (ext : String)
    (item src_l src_nc : Chars) (f : String) : Option (List MatchEntry) :=
  match nonEdlBasePriority item src_l src_nc (candidateStem f) with
  | none => some []
  | some p =>
    (parseCdlFile f).map fun c => [⟨p + extOffset ext, .fromFile c, f⟩]

/-- Contribution of one EDL event.  Accessing `edl_event["slope"]` on a
colorless event raises `KeyError` (`none`); the final `if priority:` is a
truthiness test, so a priority of `0` would be dropped. -/
def matchEdlEvent (item src_l : Chars) (f : String) (ev : EdlEvent) :
    Option (List MatchEntry) :=
  match ev.color with
  | none => none
  | some c =>
    let loc_name := lowerChars ev.loc.toList
    let priority : Option Nat :=
      if src_l = loc_name then some 2
      else if item = loc_name then some 10
      else none
    match priority with
    | some p =>
      if p ≠ 0 then some [⟨p, .fromEvent c.slope c.offset c.power c.sat, f⟩]
      else some []
    | none => some []

def goEvents (item src_l : Chars) (f : String) :
    List (String × EdlEvent) → Option (List MatchEntry)
  | [] => some []
  | (_, ev) :: rest => do
    let a ← matchEdlEvent item src_l f ev
    let b ← goEvents item src_l f rest
    pure (a ++ b)

/-- Contribution of one EDL candidate file.  `parse_edl_events` is abstracted
as `path ↦ Option Edl` with `none` for the `False` sentinel, which the
matcher skips with a warning. -/
def matchEdlFile (parseEdlFile : String → Option Edl) (item src_l : Chars)
    (f : String) : Option (List MatchEntry) :=
  match parseEdlFile f with
  | none => some []
  | some edits => goEvents item src_l f edits.events

def goFiles (h : String → Option (List MatchEntry)) :
    List String → Option (List MatchEntry)
  | [] => some []
  | f :: fs => do
    let a ← h f
    let b ← goFiles h fs
    pure (a ++ b)

/-- The outer loop of `priority_color_file` over `COLOR_FILE_EXTS` (taken as
an argument for induction).  `color_files.get(ext)` that is missing or an
empty list is skipped by the `if not ext_color_files: continue` test. -/
def goExts (pc : String → Option CdlResult) (pe : String → Option Edl)
    (cf : String → Option (List String)) (item src_l src_nc : Chars) :
    List String → Option (List MatchEntry)
  | [] => some []
  | e :: es =>
    match cf e with
    | none => goExts pc pe cf item src_l src_nc es
    | some [] => goExts pc pe cf item src_l src_nc es
    | some (f :: fs) => do
      let a ←
        if e = "edl" then goFiles (matchEdlFile pe item src_l) (f :: fs)
        else goFiles (matchNonEdl pc e item src_l src_nc) (f :: fs)
      let b ← goExts pc pe cf item src_l src_nc es
      pure (a ++ b)

/-- The `matches` list built by `priority_color_file`, in traversal order. -/
def collectMatches (pc : String → Option CdlResult) (pe : String → Option Edl)
    (cf : String → Option (List String)) (item_name source_name : String) :
    Option (List MatchEntry) :=
  let src_l := lowerChars source_name.toList
  let src_nc := stripColorSuffix src_l
  goExts pc pe cf item_name.toList src_l src_nc COLOR_FILE_EXTS

def matchLe (a b : MatchEntry) : Bool := a.priority ≤ b.priority

/-- `CollectColorFile.priority_color_file`.  The outer `Option` is an
uncaught exception; the inner `none` is the `(None, None, None)` no-match
return; otherwise `sorted(matches, key=lambda x: x[0])[0]`. -/
def priority_color_file (pc : String → Option CdlResult) (pe : String → Option Edl)
    (cf : String → Option (List String)) (item_name source_name : String) :
    Option (Option MatchEntry) :=
  (collectMatches pc pe cf item_name source_name).map fun ms =>
    (pySortBy matchLe ms).head?

end AyonHiero

namespace AyonHiero

/-! ### `get_files` and `CollectColorFile.get_color_file`

The filesystem is abstracted: `glob` is `glob.glob` (unsorted), `walk` is
`Path(p).glob("**/*")` in traversal order, and `ctimeYYYYMMDD` is the file
creation time rendered through `strftime("%Y%m%d")` and read back as an
integer.  `path.resolve()` is modelled as the identity (the walk is assumed
to yield absolute paths). -/

structure FSModel where
  glob : String → List String
  walk : String → List String
  isdir : String → Bool
  isfile : String → Bool
  ctimeYYYYMMDD : String → Nat

/-- `pathlib.Path(...).suffix`: the final component's extension including its
dot; empty for a name with no dot, a leading dot only, or a trailing dot. -/
def pathSuffix (p : Chars) : Chars :=
  let rev := (basenameChars p).reverse
  let ext := rev.takeWhile (· ≠ '.')
  match rev.drop ext.length with
  | '.' :: before => if ext ≠ [] && before ≠ [] then '.' :: ext.reverse else []
  | _ => []

/-- `files.setdefault(ext, [path]).append(path)`: a fresh key starts with the
path twice (`setdefault` inserts `[path]` and the `append` adds it again);
an existing key just appends. -/
def assocAppend (k v : String) : List (String × List String) → List (String × List String)
  | [] => [(k, [v, v])]
  | (k', vs) :: rest =>
    if k' = k then (k', vs ++ [v]) :: rest else (k', vs) :: assocAppend k v rest

def assocLookup (k : String) : List (String × List String) → Option (List String)
  | [] => none
  | (k', vs) :: rest => if k' = k then some vs else assocLookup k rest

/-- `get_files` of collect_color_file.py over the recursive listing. -/
def get_files (walk : List String) (filters : List String) : List (String × List String) :=
  walk.foldl
    (fun acc p =>
      if filters.any (fun f => pathSuffix p.toList = '.' :: f.toList) then
        assocAppend (strOfChars ((pathSuffix p.toList).drop 1)) p acc
      else acc)
    []

/-- One match of `re.split`'s pattern `"/incoming/\d+/"` at the head of `cs`,
returning the remainder. -/
def incomingMatchAt (cs : Chars) : Option Chars := do
  let r1 ← dropSeq "/incoming/".toList cs
  let ds := r1.takeWhile pyDigit
  if ds = [] then none else
  match r1.drop ds.length with
  | '/' :: rest => some rest
  | _ => none

def reSplitIncomingAux : Nat → Chars → Chars → List Chars
  | 0, acc, cs => [acc.reverse ++ cs]
  | _ + 1, acc, [] => [acc.reverse]
  | fuel + 1, acc, c :: cs =>
    match incomingMatchAt (c :: cs) with
    | some rem => acc.reverse :: reSplitIncomingAux fuel [] rem
    | none => reSplitIncomingAux fuel (c :: acc) cs

/-- `re.split("/incoming/\d+/", source_path)`. -/
def reSplitIncoming (cs : Chars) : List Chars :=
  reSplitIncomingAux (cs.length + 1) [] cs

def digitsNat (ds : Chars) : Nat :=
  ds.foldl (fun a c => 10 * a + (c.toNat - '0'.toNat)) 0

/-- The sort key of an incoming package directory: `int(basename)` when the
basename is all digits, else the creation date as `YYYYMMDD`. -/
def pkgKey (fs : FSModel) (d : String) : Nat :=
  let b := basenameChars d.toList
  if b ≠ [] && b.all pyDigit then digitsNat b else fs.ctimeYYYYMMDD d

/-- Lines 632–667 of collect_color_file.py: the ordered list of package
directories that `get_color_file` will scan.  `none` corresponds to the
early `return None, None, None` when `source_path` contains no
`/incoming/<digits>/` segment.  (`package_name` is nonempty whenever the
path continues past the matched segment, which is the only case exercised.) -/
def get_color_file_scan_order (fs : FSModel) (source_path : String) :
    Option (List String) :=
  match reSplitIncoming source_path.toList with
  | _ :: seg1 :: _ =>
    let package_name := beforeFirst '/' seg1
    let dated_incoming := beforeFirstSeq package_name source_path.toList
    let package_path := dated_incoming ++ package_name
    let incoming_path := dirnameChars (beforeFirstSeq ('/' :: package_name) source_path.toList)
    let incoming_packages :=
      (pySortBy strLexLe (fs.glob (strOfChars (incoming_path ++ "/*".toList)))).filter fs.isdir
    let sorted_incoming := pySortBy (fun a b => pkgKey fs a ≤ pkgKey fs b) incoming_packages
    if fs.isfile (strOfChars package_path) then
      let pp := strOfChars (dirnameChars package_path)
      some (pp :: (if incoming_packages.contains pp then sorted_incoming.erase pp else sorted_incoming))
    else
      some sorted_incoming
  | _ => none

/-- The color-files dictionary of one package directory. -/
def packageColorFiles (fs : FSModel) (d : String) : String → Option (List String) :=
  fun e => assocLookup e (get_files (fs.walk d) COLOR_FILE_EXTS)

/-- The scanning loop of `get_color_file`: stop at the first package whose
match yields a truthy `color_file`; the final iteration's result is returned
either way. -/
def scanPackages (fs : FSModel) (pc : String → Option CdlResult)
    (pe : String → Option Edl) (item_name source_name : String) :
    List String → Option (Option MatchEntry)
  | [] => some none
  | [d] => priority_color_file pc pe (packageColorFiles fs d) item_name source_name
  | d :: d2 :: rest => do
    let r ← priority_color_file pc pe (packageColorFiles fs d) item_name source_name
    match r with
    | some m =>
      if m.path ≠ "" then pure (some m)
      else scanPackages fs pc pe item_name source_name (d2 :: rest)
    | none => scanPackages fs pc pe item_name source_name (d2 :: rest)

/-- `CollectColorFile.get_color_file`. -/
def get_color_file (fs : FSModel) (pc : String → Option CdlResult)
    (pe : String → Option Edl) (source_path item_name source_name : String) :
    Option (Option MatchEntry) :=
  match get_color_file_scan_order fs source_path with
  | none => some none
  | some dirs => scanPackages fs pc pe item_name source_name dirs

end AyonHiero

namespace AyonHiero

/-- The condition under which `get_color_file` moves a package directory to
the front of the scan: `os.path.isfile(package_path)`, i.e. the source media
path is itself a direct child file of a dated incoming directory. -/
def sourceIsDirectFile (fs : FSModel) (source_path : String) : Bool :=
  match reSplitIncoming source_path.toList with
  | _ :: seg1 :: _ =>
    let package_name := beforeFirst '/' seg1
    fs.isfile (strOfChars (beforeFirstSeq package_name source_path.toList ++ package_name))
  | _ => false

/-! ### Concrete fixtures used by the claim theorems -/

/-- A `parse_cdl` stub: every file reads and parses to an all-`None` CDL
dictionary (as an empty file would). -/
def pcAllEmpty : String → Option CdlResult := fun p => some ⟨none, none, none, none, p⟩

/-- A `parse_edl_events` stub that always returns the `False` sentinel. -/
def peAlwaysFalse : String → Option Edl := fun _ => none

/-- The candidate set of the spec's matcher priority example. -/
def cfThreeCandidates : String → Option (List String) := fun e =>
  if e = "cc" then some ["shotA.cc"]
  else if e = "ccc" then some ["shotA.ccc"]
  else if e = "cdl" then some ["shot01.cdl"] else none

/-- A single `cdl` candidate whose stem matches the item name up to case. -/
def cfItemCaseCdl : String → Option (List String) := fun e =>
  if e = "cdl" then some ["Shot01.cdl"] else none

/-- A `parse_cdl` stub that raises (an undecodable file) on one path. -/
def pcFailOnShotCc : String → Option CdlResult := fun p =>
  if p = "/pkg/shot01.cc" then none else some ⟨none, none, none, none, p⟩

/-- Candidates containing the undecodable-but-matching `cc` file and a
second, well-formed candidate. -/
def cfWithFailingCc : String → Option (List String) := fun e =>
  if e = "cc" then some ["/pkg/shot01.cc", "/pkg/other.cc"]
  else if e = "cdl" then some ["/pkg/shot01.cdl"] else none

/-- Candidates with one unparsable EDL file next to a matching `cc` file. -/
def cfWithBadEdl : String → Option (List String) := fun e =>
  if e = "edl" then some ["/pkg/bad.edl"]
  else if e = "cc" then some ["/pkg/shot01.cc"] else none

/-- The same candidates with the EDL file removed. -/
def cfWithoutEdl : String → Option (List String) := fun e =>
  if e = "edl" then some []
  else if e = "cc" then some ["/pkg/shot01.cc"] else none

/-- Incoming area with three numeric package directories `1`, `2`, `3`; the
source media sits directly inside package `2`. -/
def fsThreePkgs : FSModel :=
  { glob := fun p =>
      if p = "/proj/s/incoming/*" then
        ["/proj/s/incoming/1", "/proj/s/incoming/2", "/proj/s/incoming/3"]
      else []
    walk := fun _ => []
    isdir := fun _ => true
    isfile := fun p => p = "/proj/s/incoming/2/shot.mov"
    ctimeYYYYMMDD := fun _ => 0 }

def srcThreePkgs : String := "/proj/s/incoming/2/shot.mov"

/-- CDL text containing only a slope element. -/
def cdlSlopeOnly : Chars := "<slope>1.0 1.0 1.0</slope>".toList

/-- CDL text with slope, offset and power but no saturation element. -/
def cdlNoSat : Chars :=
  ("<slope>1.01 1.0 0.99</slope><offset>0.0 0.0 0.002</offset>" ++
   "<power>1.0 1.0 1.0</power>").toList

/-- A minimal EDL whose LOC line carries a leading-underscore token. -/
def edlUnderscoreLoc : Chars :=
  "T\n001  AX V C\n* LOC: 01:00:00:00 YELLOW _abc_101_010\n".toList

/-- An edit block carrying an `ASC_SOP` comment but no `ASC_SAT`. -/
def blockNoSat : Chars :=
  ("001  AX V C\n* ASC_SOP (1.0100 1.0000 0.9900) " ++
   "(0.0000 0.0000 0.0020) (1.0000 1.0000 1.0000)\n").toList

/-- A small two-event EDL (one event with color, one without). -/
def sampleEdlText : Chars :=
  ("TITLE: test\n\n" ++
   "001  AX       V     C        00:00:00:00 00:00:01:00 01:00:00:00 01:00:01:00\n" ++
   "* FROM CLIP NAME: shotA_cc\n" ++
   "* ASC_SOP (1.0100 1.0000 0.9900) (0.0000 0.0000 0.0020) (1.0000 1.0000 1.0000)\n" ++
   "* ASC_SAT 1.05\n" ++
   "* LOC: 01:00:00:00 YELLOW abc_101_010_010\n" ++
   "002  BX       V     C        00:00:00:00 00:00:01:00 01:00:01:00 01:00:02:00\n" ++
   "* FROM CLIP NAME: other\n").toList

end AyonHiero

namespace AyonHiero

/-- Keys of an events dictionary. -/
def dictKeys (l : List (String × EdlEvent)) : List String := l.map Prod.fst

/-- Number of clip items on a track. -/
def countClips (items : List OtioItem) : Nat :=
  items.countP fun i => match i with | .clip _ => true | .other => false

/-- Decimal key string used by `otioBuild`. -/
def natStr (n : Nat) : String := strOfChars (natChars n)

/-! ### Lemmas: decimal rendering -/

theorem digitsNat_append (a : Chars) (c : Char) :
    digitsNat (a ++ [c]) = 10 * digitsNat a + (c.toNat - '0'.toNat) := by
  simp [digitsNat, List.foldl_append, Nat.mul_comm]

theorem digitVal_digitChar10 {d : Nat} (h : d < 10) :
    (digitChar10 d).toNat - '0'.toNat = d := by
  interval_cases d <;> decide

theorem digitsNat_natCharsAux : ∀ fuel n, n < 10 ^ fuel → digitsNat (natCharsAux fuel n) = n := by
  intro fuel
  induction fuel with
  | zero => intro n h; simp at h; simp [h, natCharsAux, digitsNat]
  | succ fuel ih =>
    intro n h
    unfold natCharsAux
    by_cases h10 : n < 10
    · simp only [if_pos h10]
      have hv := digitVal_digitChar10 h10
      simp [digitsNat] at hv ⊢
      omega
    · simp only [if_neg h10]
      rw [digitsNat_append, ih (n / 10) ?_, digitVal_digitChar10 (Nat.mod_lt _ (by norm_num))]
      · omega
      · rw [Nat.div_lt_iff_lt_mul (by norm_num)]
        calc n < 10 ^ (fuel + 1) := h
        _ = 10 ^ fuel * 10 := by ring

theorem digitsNat_natChars (n : Nat) : digitsNat (natChars n) = n := by
  refine digitsNat_natCharsAux (n + 1) n ?_
  calc n < 10 ^ n := Nat.lt_pow_self (by norm_num) n
  _ ≤ 10 ^ (n + 1) := Nat.pow_le_pow_right (by norm_num) (Nat.le_succ n)

theorem natChars_injective {m n : Nat} (h : natChars m = natChars n) : m = n := by
  have hm := digitsNat_natChars m
  rw [h, digitsNat_natChars] at hm
  omega

theorem natStr_injective {m n : Nat} (h : natStr m = natStr n) : m = n := by
  apply natChars_injective (m := m) (n := n)
  have h2 := congrArg String.data h
  simpa [natStr, strOfChars] using h2

/-! ### Lemmas: the events dictionary -/

theorem mem_dictInsert : ∀ {l kv k v}, kv ∈ dictInsert k v l → kv = (k, v) ∨ kv ∈ l := by
  intro l
  induction l with
  | nil => intro kv k v h; exact Or.inl (by simpa [dictInsert] using h)
  | cons p rest ih =>
    intro kv k v h
    obtain ⟨k', v'⟩ := p
    unfold dictInsert at h
    by_cases hk : k' = k
    · simp only [if_pos hk, List.mem_cons] at h
      rcases h with h | h
      · exact Or.inl h
      · exact Or.inr (List.mem_cons_of_mem _ h)
    · simp only [if_neg hk, List.mem_cons] at h
      rcases h with h | h
      · exact Or.inr (by simp [h])
      · rcases ih h with h2 | h2
        · exact Or.inl h2
        · exact Or.inr (List.mem_cons_of_mem _ h2)

theorem dictLookup_dictInsert_self (k : String) (v : EdlEvent) :
    ∀ l, dictLookup k (dictInsert k v l) = some v := by
  intro l
  induction l with
  | nil => simp [dictInsert, dictLookup]
  | cons p rest ih =>
    obtain ⟨k', v'⟩ := p
    unfold dictInsert
    by_cases hk : k' = k
    · simp [hk, dictLookup]
    · simp [hk, dictLookup, ih]

theorem dictLookup_isSome_dictInsert (k' k : String) (v : EdlEvent) :
    ∀ l, (dictLookup k' l).isSome = true →
      (dictLookup k' (dictInsert k v l)).isSome = true := by
  intro l
  induction l with
  | nil => simp [dictLookup]
  | cons p rest ih =>
    obtain ⟨k1, v1⟩ := p
    intro h
    by_cases hk : k1 = k
    · simp only [dictInsert, if_pos hk]
      by_cases he : k = k'
      · simp [dictLookup, he]
      · subst hk
        simp only [dictLookup, if_neg he] at h ⊢
        exact h
    · simp only [dictInsert, if_neg hk]
      by_cases he : k1 = k'
      · simp [dictLookup, he]
      · simp only [dictLookup, if_neg he] at h ⊢
        exact ih h

theorem mem_dictKeys_dictInsert {k' k : String} {v : EdlEvent} {l}
    (h : k' ∈ dictKeys (dictInsert k v l)) : k' = k ∨ k' ∈ dictKeys l := by
  unfold dictKeys at h
  rcases List.mem_map.mp h with ⟨kv, hkv, hfst⟩
  rcases mem_dictInsert hkv with h2 | h2
  · left; rw [← hfst, h2]
  · right; exact List.mem_map.mpr ⟨kv, h2, hfst⟩

theorem length_dictInsert_of_fresh (k : String) (v : EdlEvent) :
    ∀ l, k ∉ dictKeys l → (dictInsert k v l).length = l.length + 1 := by
  intro l
  induction l with
  | nil => simp [dictInsert]
  | cons p rest ih =>
    obtain ⟨k1, v1⟩ := p
    intro h
    have hk1 : k1 ≠ k := by
      intro he; exact h (by simp [dictKeys, he])
    unfold dictInsert
    simp only [if_neg hk1, List.length_cons]
    rw [ih (fun hm => h (by simp [dictKeys] at hm ⊢; exact Or.inr hm))]

/-! ### Lemmas: the stable sort -/

theorem mem_insertStableBy {α : Type} {le : α → α → Bool} {x z : α} :
    ∀ {l}, z ∈ insertStableBy le x l ↔ z = x ∨ z ∈ l := by
  intro l
  induction l with
  | nil => simp [insertStableBy]
  | cons y ys ih =>
    unfold insertStableBy
    by_cases hle : le x y
    · simp [hle]
    · simp only [if_neg hle, List.mem_cons, ih]
      tauto

theorem pairwise_insertStableBy {α : Type} {le : α → α → Bool}
    (htot : ∀ a b, le a b = true ∨ le b a = true)
    (htrans : ∀ a b c, le a b = true → le b c = true → le a c = true) (x : α) :
    ∀ {l}, l.Pairwise (fun a b => le a b = true) →
      (insertStableBy le x l).Pairwise (fun a b => le a b = true) := by
  intro l
  induction l with
  | nil => intro _; simp [insertStableBy]
  | cons y ys ih =>
    intro hp
    rcases List.pairwise_cons.mp hp with ⟨hy, hys⟩
    unfold insertStableBy
    by_cases hle : le x y
    · simp only [if_pos hle]
      refine List.pairwise_cons.mpr ⟨?_, hp⟩
      intro z hz
      rcases List.mem_cons.mp hz with rfl | hz
      · exact hle
      · exact htrans _ _ _ hle (hy z hz)
    · simp only [if_neg hle]
      refine List.pairwise_cons.mpr ⟨?_, ih hys⟩
      intro z hz
      rcases mem_insertStableBy.mp hz with rfl | hz
      · rcases htot z y with h | h
        · exact absurd h (by simpa using hle)
        · exact h
      · exact hy z hz

theorem pairwise_pySortBy {α : Type} {le : α → α → Bool}
    (htot : ∀ a b, le a b = true ∨ le b a = true)
    (htrans : ∀ a b c, le a b = true → le b c = true → le a c = true) :
    ∀ l : List α, (pySortBy le l).Pairwise (fun a b => le a b = true) := by
  intro l
  induction l with
  | nil => simp [pySortBy]
  | cons x xs ih => exact pairwise_insertStableBy htot htrans x ih

theorem pySortBy_eq_nil {α : Type} {le : α → α → Bool} :
    ∀ {l : List α}, pySortBy le l = [] ↔ l = [] := by
  intro l
  cases l with
  | nil => simp [pySortBy]
  | cons x xs =>
    simp only [pySortBy]
    constructor
    · intro h
      cases hs : pySortBy le xs with
      | nil => rw [hs] at h; simp [insertStableBy] at h
      | cons y ys =>
        rw [hs] at h
        unfold insertStableBy at h
        by_cases hle : le x y <;> simp [hle] at h
    · intro h; cases h

theorem head?_pySortBy {α : Type} (le : α → α → Bool) :
    ∀ l : List α, (pySortBy le l).head? = firstMinBy le l := by
  intro l
  induction l with
  | nil => rfl
  | cons x xs ih =>
    simp only [pySortBy, firstMinBy]
    cases hs : pySortBy le xs with
    | nil =>
      have hx : xs = [] := pySortBy_eq_nil.mp hs
      subst hx
      simp [insertStableBy, firstMinBy]
    | cons y ys =>
      rw [hs] at ih
      rw [← ih]
      unfold insertStableBy
      by_cases hle : le x y <;> simp [hle]

end AyonHiero

namespace AyonHiero

/-! ### Lemmas: `buildEvents` (regex parser loop) -/

theorem blockEvent_color (b : Chars) : (blockEvent b).color = blockColor b := rfl

theorem buildEvents_true_colored :
    ∀ bs acc evs, (∀ kv ∈ acc, kv.2.color.isSome = true) →
      buildEvents true bs acc = some evs →
      ∀ kv ∈ evs, kv.2.color.isSome = true := by
  intro bs
  induction bs with
  | nil =>
    intro acc evs hacc h
    simp only [buildEvents] at h
    cases h
    exact hacc
  | cons b rest ih =>
    intro acc evs hacc h
    simp only [buildEvents] at h
    cases hk : blockKey b with
    | none => rw [hk] at h; cases h
    | some k =>
      rw [hk] at h
      cases hc : blockColor b with
      | some c =>
        rw [hc] at h
        refine ih _ _ ?_ h
        intro kv hkv
        rcases mem_dictInsert hkv with h2 | h2
        · rw [h2]; simp [blockEvent_color, hc]
        · exact hacc kv h2
      | none =>
        rw [hc] at h
        exact ih _ _ hacc h

theorem buildEvents_false_keys :
    ∀ bs acc evs, buildEvents false bs acc = some evs →
      (∀ k, (dictLookup k acc).isSome = true → (dictLookup k evs).isSome = true) ∧
      (∀ b ∈ bs, ∀ k, blockKey b = some k → (dictLookup k evs).isSome = true) := by
  intro bs
  induction bs with
  | nil =>
    intro acc evs h
    simp only [buildEvents] at h
    cases h
    exact ⟨fun _ hk => hk, by simp⟩
  | cons b rest ih =>
    intro acc evs h
    simp only [buildEvents] at h
    cases hk : blockKey b with
    | none => rw [hk] at h; cases h
    | some k =>
      rw [hk] at h
      have step :
          buildEvents false rest (dictInsert k (blockEvent b) acc) = some evs := by
        cases hc : blockColor b with
        | some c => rw [hc] at h; exact h
        | none => rw [hc] at h; simpa using h
      rcases ih _ _ step with ⟨hmono, hall⟩
      constructor
      · intro k' hk'
        exact hmono k' (dictLookup_isSome_dictInsert k' k _ _ hk')
      · intro b' hb' k' hkb'
        rcases List.mem_cons.mp hb' with rfl | hb'
        · have : (dictLookup k' (dictInsert k (blockEvent b') acc)).isSome = true := by
            rw [hk] at hkb'
            cases hkb'
            rw [dictLookup_dictInsert_self]
            rfl
          exact hmono k' this
        · exact hall b' hb' k' hkb'

theorem buildEvents_provenance (colorOnly : Bool) :
    ∀ bs acc evs, buildEvents colorOnly bs acc = some evs →
      ∀ kv ∈ evs, kv ∈ acc ∨ ∃ b, b ∈ bs ∧ blockKey b = some kv.1 ∧ kv.2 = blockEvent b := by
  intro bs
  induction bs with
  | nil =>
    intro acc evs h kv hkv
    simp only [buildEvents] at h
    cases h
    exact Or.inl hkv
  | cons b rest ih =>
    intro acc evs h kv hkv
    simp only [buildEvents] at h
    cases hk : blockKey b with
    | none => rw [hk] at h; cases h
    | some k =>
      rw [hk] at h
      have next :
          (buildEvents colorOnly rest (dictInsert k (blockEvent b) acc) = some evs) ∨
          (buildEvents colorOnly rest acc = some evs) := by
        cases hc : blockColor b with
        | some c => rw [hc] at h; exact Or.inl h
        | none =>
          rw [hc] at h
          cases colorOnly with
          | true => exact Or.inr (by simpa using h)
          | false => exact Or.inl (by simpa using h)
      rcases next with hstep | hstep
      · rcases ih _ _ hstep kv hkv with hin | ⟨b', hb', hkb', hvb'⟩
        · rcases mem_dictInsert hin with h2 | h2
          · right
            refine ⟨b, List.mem_cons_self b rest, ?_, ?_⟩
            · rw [hk]; rw [h2]
            · rw [h2]
          · exact Or.inl h2
        · exact Or.inr ⟨b', List.mem_cons_of_mem _ hb', hkb', hvb'⟩
      · rcases ih _ _ hstep kv hkv with hin | ⟨b', hb', hkb', hvb'⟩
        · exact Or.inl hin
        · exact Or.inr ⟨b', List.mem_cons_of_mem _ hb', hkb', hvb'⟩

/-! ### Lemmas: `otioBuild` (OTIO parser loop) -/

theorem otioClipEvent_color (c : OtioClip) :
    (otioClipEvent c).color = c.cdl.map otioColor := rfl

theorem otioBuild_true_colored :
    ∀ items n acc, (∀ kv ∈ acc, kv.2.color.isSome = true) →
      ∀ kv ∈ (otioBuild true items n acc).2, kv.2.color.isSome = true := by
  intro items
  induction items with
  | nil => intro n acc hacc; exact hacc
  | cons i rest ih =>
    intro n acc hacc
    cases i with
    | other => exact ih n acc hacc
    | clip c =>
      simp only [otioBuild]
      cases hc : c.cdl with
      | none => simpa [hc] using ih (n + 1) acc hacc
      | some cd =>
        rw [if_neg (by simp)]
        refine ih (n + 1) _ ?_
        intro kv hkv
        rcases mem_dictInsert hkv with h2 | h2
        · rw [h2]; simp [otioClipEvent_color, hc]
        · exact hacc kv h2

theorem otioBuild_provenance (colorOnly : Bool) :
    ∀ items n acc, ∀ kv ∈ (otioBuild colorOnly items n acc).2,
      kv ∈ acc ∨ ∃ c, OtioItem.clip c ∈ items ∧ kv.2 = otioClipEvent c := by
  intro items
  induction items with
  | nil => intro n acc kv hkv; exact Or.inl hkv
  | cons i rest ih =>
    intro n acc kv hkv
    cases i with
    | other =>
      rcases ih n acc kv hkv with h | ⟨c, hc, hv⟩
      · exact Or.inl h
      · exact Or.inr ⟨c, List.mem_cons_of_mem _ hc, hv⟩
    | clip c =>
      simp only [otioBuild] at hkv
      by_cases hskip : c.cdl.isNone && colorOnly
      · rw [if_pos hskip] at hkv
        rcases ih (n + 1) acc kv hkv with h | ⟨c', hc', hv'⟩
        · exact Or.inl h
        · exact Or.inr ⟨c', List.mem_cons_of_mem _ hc', hv'⟩
      · rw [if_neg hskip] at hkv
        rcases ih (n + 1) _ kv hkv with h | ⟨c', hc', hv'⟩
        · rcases mem_dictInsert h with h2 | h2
          · exact Or.inr ⟨c, List.mem_cons_self (OtioItem.clip c) rest, by rw [h2]⟩
          · exact Or.inl h2
        · exact Or.inr ⟨c', List.mem_cons_of_mem _ hc', hv'⟩

theorem otioBuild_false_len :
    ∀ items n acc,
      (∀ k ∈ dictKeys acc, ∃ m, 1 ≤ m ∧ m ≤ n ∧ k = natStr m) →
      (otioBuild false items n acc).2.length = acc.length + countClips items ∧
      (∀ k ∈ dictKeys (otioBuild false items n acc).2,
        ∃ m, 1 ≤ m ∧ m ≤ n + countClips items ∧ k = natStr m) := by
  intro items
  induction items with
  | nil =>
    intro n acc hinv
    simp only [otioBuild, countClips, List.countP_nil]
    exact ⟨by omega, fun k hk => by
      rcases hinv k hk with ⟨m, h1, h2, h3⟩
      exact ⟨m, h1, by omega, h3⟩⟩
  | cons i rest ih =>
    intro n acc hinv
    cases i with
    | other =>
      have hcount : countClips (OtioItem.other :: rest) = countClips rest := by
        simp [countClips, List.countP_cons]
      rcases ih n acc hinv with ⟨hlen, hkeys⟩
      refine ⟨?_, ?_⟩
      · rw [show (otioBuild false (OtioItem.other :: rest) n acc) =
            (otioBuild false rest n acc) from rfl, hlen, hcount]
      · rw [show (otioBuild false (OtioItem.other :: rest) n acc) =
            (otioBuild false rest n acc) from rfl, hcount]
        exact hkeys
    | clip c =>
      have hfresh : natStr (n + 1) ∉ dictKeys acc := by
        intro hmem
        rcases hinv _ hmem with ⟨m, h1, h2, h3⟩
        have := natStr_injective h3.symm
        omega
      have hinv' : ∀ k ∈ dictKeys (dictInsert (natStr (n + 1)) (otioClipEvent c) acc),
          ∃ m, 1 ≤ m ∧ m ≤ n + 1 ∧ k = natStr m := by
        intro k hk
        rcases mem_dictKeys_dictInsert hk with h2 | h2
        · exact ⟨n + 1, by omega, by omega, h2⟩
        · rcases hinv k h2 with ⟨m, h1', h2', h3'⟩
          exact ⟨m, h1', by omega, h3'⟩
      have hcount : countClips (OtioItem.clip c :: rest) = countClips rest + 1 := by
        simp [countClips, List.countP_cons]
      have hstep : (otioBuild false (OtioItem.clip c :: rest) n acc) =
          otioBuild false rest (n + 1) (dictInsert (natStr (n + 1)) (otioClipEvent c) acc) := by
        simp [otioBuild, natStr, strOfChars]
      rcases ih (n + 1) _ hinv' with ⟨hlen, hkeys⟩
      refine ⟨?_, ?_⟩
      · rw [hstep, hlen, length_dictInsert_of_fresh _ _ _ hfresh, hcount]
        omega
      · rw [hstep, hcount]
        intro k hk
        rcases hkeys k hk with ⟨m, h1', h2', h3'⟩
        exact ⟨m, h1', by omega, h3'⟩

end AyonHiero

namespace AyonHiero

/-! ### Lemmas: lower-casing commutes with path splitting -/

theorem lowerChar_fix_or_letter (c : Char) :
    lowerChar c = c ∨
      (c ∈ (['A', 'B', 'C', 'D', 'E', 'F', 'G', 'H', 'I', 'J', 'K', 'L', 'M', 'N', 'O', 'P', 'Q', 'R', 'S', 'T', 'U', 'V', 'W', 'X', 'Y', 'Z'] : List Char) ∧
       lowerChar c ∈ (['a', 'b', 'c', 'd', 'e', 'f', 'g', 'h', 'i', 'j', 'k', 'l', 'm', 'n', 'o', 'p', 'q', 'r', 's', 't', 'u', 'v', 'w', 'x', 'y', 'z'] : List Char)) := by
  rcases eq_or_ne c 'A' with rfl | hA
  · right; decide
  rcases eq_or_ne c 'B' with rfl | hB
  · right; decide
  rcases eq_or_ne c 'C' with rfl | hC
  · right; decide
  rcases eq_or_ne c 'D' with rfl | hD
  · right; decide
  rcases eq_or_ne c 'E' with rfl | hE
  · right; decide
  rcases eq_or_ne c 'F' with rfl | hF
  · right; decide
  rcases eq_or_ne c 'G' with rfl | hG
  · right; decide
  rcases eq_or_ne c 'H' with rfl | hH
  · right; decide
  rcases eq_or_ne c 'I' with rfl | hI
  · right; decide
  rcases eq_or_ne c 'J' with rfl | hJ
  · right; decide
  rcases eq_or_ne c 'K' with rfl | hK
  · right; decide
  rcases eq_or_ne c 'L' with rfl | hL
  · right; decide
  rcases eq_or_ne c 'M' with rfl | hM
  · right; decide
  rcases eq_or_ne c 'N' with rfl | hN
  · right; decide
  rcases eq_or_ne c 'O' with rfl | hO
  · right; decide
  rcases eq_or_ne c 'P' with rfl | hP
  · right; decide
  rcases eq_or_ne c 'Q' with rfl | hQ
  · right; decide
  rcases eq_or_ne c 'R' with rfl | hR
  · right; decide
  rcases eq_or_ne c 'S' with rfl | hS
  · right; decide
  rcases eq_or_ne c 'T' with rfl | hT
  · right; decide
  rcases eq_or_ne c 'U' with rfl | hU
  · right; decide
  rcases eq_or_ne c 'V' with rfl | hV
  · right; decide
  rcases eq_or_ne c 'W' with rfl | hW
  · right; decide
  rcases eq_or_ne c 'X' with rfl | hX
  · right; decide
  rcases eq_or_ne c 'Y' with rfl | hY
  · right; decide
  rcases eq_or_ne c 'Z' with rfl | hZ
  · right; decide
  left
  unfold lowerChar
  rw [if_neg hA, if_neg hB, if_neg hC, if_neg hD, if_neg hE, if_neg hF, if_neg hG, if_neg hH, if_neg hI, if_neg hJ, if_neg hK, if_neg hL, if_neg hM, if_neg hN, if_neg hO, if_neg hP, if_neg hQ, if_neg hR, if_neg hS, if_neg hT, if_neg hU, if_neg hV, if_neg hW, if_neg hX, if_neg hY, if_neg hZ]

theorem lowerChar_eq_iff_special {d : Char}
    (hdu : d ∉ (['A', 'B', 'C', 'D', 'E', 'F', 'G', 'H', 'I', 'J', 'K', 'L', 'M', 'N', 'O', 'P', 'Q', 'R', 'S', 'T', 'U', 'V', 'W', 'X', 'Y', 'Z'] : List Char))
    (hdl : d ∉ (['a', 'b', 'c', 'd', 'e', 'f', 'g', 'h', 'i', 'j', 'k', 'l', 'm', 'n', 'o', 'p', 'q', 'r', 's', 't', 'u', 'v', 'w', 'x', 'y', 'z'] : List Char)) (c : Char) :
    (lowerChar c = d) ↔ (c = d) := by
  rcases lowerChar_fix_or_letter c with hfix | ⟨hcu, hcl⟩
  · rw [hfix]
  · constructor
    · intro h; exact absurd (h ▸ hcl) hdl
    · intro h; exact absurd (h ▸ hcu) hdu

theorem lowerChar_slash (c : Char) : (lowerChar c = '/') ↔ (c = '/') :=
  lowerChar_eq_iff_special (by decide) (by decide) c

theorem lowerChar_dot (c : Char) : (lowerChar c = '.') ↔ (c = '.') :=
  lowerChar_eq_iff_special (by decide) (by decide) c

theorem basename_lower (cs : Chars) :
    basenameChars (lowerChars cs) = lowerChars (basenameChars cs) := by
  have hfun : ((fun x => decide (x ≠ '/')) ∘ lowerChar) = (fun x => decide (x ≠ '/')) := by
    funext c
    simp [Function.comp, lowerChar_slash]
  unfold basenameChars lowerChars
  rw [← List.map_reverse, List.takeWhile_map, hfun, List.map_reverse]

theorem splitextStem_lower (b : Chars) :
    splitextStemOfBase (lowerChars b) = lowerChars (splitextStemOfBase b) := by
  have hfun : ((fun x => decide (x ≠ '.')) ∘ lowerChar) = (fun x => decide (x ≠ '.')) := by
    funext c
    simp [Function.comp, lowerChar_dot]
  unfold splitextStemOfBase
  rw [show (lowerChars b).reverse = (b.reverse).map lowerChar from
      by rw [lowerChars, ← List.map_reverse]]
  rw [List.takeWhile_map, hfun, List.length_map, ← List.map_drop]
  cases hd : (b.reverse).drop ((b.reverse).takeWhile (fun x => decide (x ≠ '.'))).length with
  | nil => simp [lowerChars]
  | cons x xs =>
    simp only [List.map_cons]
    rw [show (xs.map lowerChar).reverse = xs.reverse.map lowerChar from
        (List.map_reverse lowerChar xs).symm]
    rw [List.any_map, show ((fun x => decide (x ≠ '.')) ∘ lowerChar) = _ from hfun]
    rw [apply_ite lowerChars]
    by_cases ha : xs.reverse.any (fun x => decide (x ≠ '.')) = true
    · rw [if_pos ha, if_pos ha, lowerChars, List.map_reverse]
    · rw [Bool.not_eq_true] at ha
      rw [ha]
      simp

theorem candidateStem_congr {f1 f2 : String}
    (h : lowerChars f1.toList = lowerChars f2.toList) :
    candidateStem f1 = candidateStem f2 := by
  unfold candidateStem
  rw [← splitextStem_lower, ← basename_lower, h, basename_lower, splitextStem_lower]

/-! ### Lemmas: an EDL candidate whose parse fails contributes nothing -/

theorem goFiles_skip_middle (h : String → Option (List MatchEntry)) (f : String)
    (hf : h f = some []) :
    ∀ l1 l2, goFiles h (l1 ++ f :: l2) = goFiles h (l1 ++ l2) := by
  intro l1 l2
  induction l1 with
  | nil =>
    simp only [List.nil_append, goFiles, hf]
    cases goFiles h l2 <;> rfl
  | cons g gs ih =>
    simp only [List.cons_append, goFiles]
    rw [show gs.append (f :: l2) = gs ++ f :: l2 from rfl, ih]
    rfl

theorem goExts_cons_edl (pc : String → Option CdlResult) (pe : String → Option Edl)
    (cf : String → Option (List String)) (item src snc : Chars)
    (es : List String) (fs : List String) (hcf : cf "edl" = some fs) :
    goExts pc pe cf item src snc ("edl" :: es) =
      do { let a ← goFiles (matchEdlFile pe item src) fs
           let b ← goExts pc pe cf item src snc es
           pure (a ++ b) } := by
  cases fs with
  | nil =>
    simp only [goExts, hcf, goFiles]
    cases goExts pc pe cf item src snc es <;> simp
  | cons f fs' =>
    simp only [goExts, hcf]
    rw [if_pos trivial]

theorem goExts_congr_edl (pc : String → Option CdlResult) (pe : String → Option Edl)
    (cf cf' : String → Option (List String)) (item src snc : Chars)
    (l1 l2 : List String) (f : String) (hpe : pe f = none)
    (h1 : cf "edl" = some (l1 ++ f :: l2)) (h2 : cf' "edl" = some (l1 ++ l2))
    (hother : ∀ e, e ≠ "edl" → cf e = cf' e) :
    ∀ es, goExts pc pe cf item src snc es = goExts pc pe cf' item src snc es := by
  intro es
  induction es with
  | nil => rfl
  | cons e rest ih =>
    by_cases he : e = "edl"
    · subst he
      have hskip : matchEdlFile pe item src f = some [] := by
        simp [matchEdlFile, hpe]
      rw [goExts_cons_edl pc pe cf item src snc rest _ h1,
          goExts_cons_edl pc pe cf' item src snc rest _ h2,
          goFiles_skip_middle (matchEdlFile pe item src) f hskip l1 l2, ih]
    · have hcf : cf e = cf' e := hother e he
      simp only [goExts, hcf, ih]

end AyonHiero

namespace AyonHiero

set_option maxRecDepth 1000000

/-! ### Claim theorems -/

/-- C1 (counterexample): on the spec's matcher example
(`source_name="shotA_cc"`, `shot_name="shot01"`, candidates `shotA.cc`,
`shotA.ccc`, `shot01.cdl`) the winner is `shotA.cc` but its combined priority
is 4, not 0: the lowered source name `"shota_cc"` is not equal to the stem
`"shota"`, so only the de-suffixed comparison (base 4) matches. -/
theorem C1_counterexample :
    (priority_color_file pcAllEmpty peAlwaysFalse cfThreeCandidates "shot01" "shotA_cc").map
        (Option.map fun m => (m.priority, m.path)) = some (some (4, "shotA.cc")) ∧
      ((4 : Nat) == 0) = false :=
  ⟨by decide, by decide⟩

/-- C1: amended matcher priority example: the candidates are collected in
traversal order (`ccc` before `cc` before `cdl`) with combined priorities
5, 4 and 11, and `priority_color_file` returns `shotA.cc` with combined
priority 4 (base 4 for the de-suffixed source-name match plus type offset 0),
`shotA.ccc` ranking at 5 and `shot01.cdl` at 11. -/
theorem C1_amended :
    (collectMatches pcAllEmpty peAlwaysFalse cfThreeCandidates "shot01" "shotA_cc").map
        (List.map fun m => (m.priority, m.path)) =
      some [(5, "shotA.ccc"), (4, "shotA.cc"), (11, "shot01.cdl")] ∧
    (priority_color_file pcAllEmpty peAlwaysFalse cfThreeCandidates "shot01" "shotA_cc").map
        (Option.map fun m => (m.priority, m.path)) = some (some (4, "shotA.cc")) :=
  ⟨by decide, by decide⟩

/-- C2 (counterexample): `parse_cdl` on text containing only a `<slope>`
element returns a partial decision (slope set, offset and power `None`),
contradicting the claim that a missing group makes the whole decision
`None`. -/
theorem C2_counterexample :
    parse_cdl cdlSlopeOnly "f.cc" =
      some ⟨some ("1.0", "1.0", "1.0"), none, none, none, "f.cc"⟩ := by
  decide

/-- C2: amended: `parse_cdl` extracts the slope, offset and power groups
independently: whenever the call returns (no float-conversion exception), a
field is `None` exactly when its own pattern found no match, and the other
fields are still returned, so partial decisions occur. -/
theorem floatTriple_none_iff (o : Option (Chars × Chars × Chars))
    (v : Option (String × String × String)) (h : floatTriple o = some v) :
    v = none ↔ o = none := by
  cases o with
  | none =>
    simp only [floatTriple, Option.some.injEq] at h
    simp [← h]
  | some g =>
    obtain ⟨g1, g2, g3⟩ := g
    simp only [floatTriple] at h
    by_cases hv : (pyFloatValid g1 && pyFloatValid g2 && pyFloatValid g3) = true
    · rw [if_pos hv] at h
      cases h
      simp
    · rw [if_neg hv] at h
      cases h

theorem parse_cdl_fields (content : Chars) (path : String) (r : CdlResult)
    (h : parse_cdl content path = some r) :
    floatTriple (cdlTripleSearch "<slope>".toList "</slope>".toList (lowerChars content)) =
        some r.slope ∧
    floatTriple (cdlTripleSearch "<offset>".toList "</offset>".toList (lowerChars content)) =
        some r.offset ∧
    floatTriple (cdlTripleSearch "<power>".toList "</power>".toList (lowerChars content)) =
        some r.power ∧
    (cdlSatSearch (lowerChars content) = none → r.sat = none) := by
  simp only [parse_cdl, Option.pure_def, Option.bind_eq_bind, Option.bind_eq_some,
    Option.some_bind, Option.none_bind] at h
  obtain ⟨a, ha, b, hb, c, hc, hsat⟩ := h
  cases hs4 : cdlSatSearch (lowerChars content) with
  | none =>
    rw [hs4] at hsat
    cases hsat
    exact ⟨ha, hb, hc, fun _ => rfl⟩
  | some s =>
    rw [hs4] at hsat
    dsimp only at hsat
    by_cases hv : pyFloatValid s = true
    · rw [if_pos hv] at hsat
      cases hsat
      exact ⟨ha, hb, hc, fun hcontra => by cases hcontra⟩
    · rw [if_neg hv] at hsat
      cases hsat

theorem C2_amended (content : Chars) (path : String) (r : CdlResult)
    (h : parse_cdl content path = some r) :
    (r.slope = none ↔
      cdlTripleSearch "<slope>".toList "</slope>".toList (lowerChars content) = none) ∧
    (r.offset = none ↔
      cdlTripleSearch "<offset>".toList "</offset>".toList (lowerChars content) = none) ∧
    (r.power = none ↔
      cdlTripleSearch "<power>".toList "</power>".toList (lowerChars content) = none) := by
  obtain ⟨h1, h2, h3, _⟩ := parse_cdl_fields content path r h
  exact ⟨floatTriple_none_iff _ _ h1, floatTriple_none_iff _ _ h2,
    floatTriple_none_iff _ _ h3⟩

/-- C2 (witness): the amended theorem applied to the slope-only text. -/
theorem C2_amended_witness :
    ((⟨some ("1.0", "1.0", "1.0"), none, none, none, "f.cc"⟩ : CdlResult).slope = none ↔
      cdlTripleSearch "<slope>".toList "</slope>".toList (lowerChars cdlSlopeOnly) = none) ∧
    ((⟨some ("1.0", "1.0", "1.0"), none, none, none, "f.cc"⟩ : CdlResult).offset = none ↔
      cdlTripleSearch "<offset>".toList "</offset>".toList (lowerChars cdlSlopeOnly) = none) ∧
    ((⟨some ("1.0", "1.0", "1.0"), none, none, none, "f.cc"⟩ : CdlResult).power = none ↔
      cdlTripleSearch "<power>".toList "</power>".toList (lowerChars cdlSlopeOnly) = none) :=
  C2_amended cdlSlopeOnly "f.cc" _ (by decide)

/-- C3 (counterexample): `parse_cdl` on CDL text with slope, offset and power
but no `<saturation>` element returns the decision with `sat = None`, not
1.0. -/
theorem C3_counterexample :
    parse_cdl cdlNoSat "g.cdl" =
      some ⟨some ("1.01", "1.0", "0.99"), some ("0.0", "0.0", "0.002"),
        some ("1.0", "1.0", "1.0"), none, "g.cdl"⟩ := by
  decide

/-- C3: amended: when the saturation field is absent, `parse_cdl` returns
`sat = None` (not 1.0); the regex EDL parser defaults a SOP-bearing event's
`sat` to the plain number 1; the OTIO parser defaults `asc_sat` to 1.0. -/
theorem C3_amended :
    (∀ content path r, parse_cdl content path = some r →
      cdlSatSearch (lowerChars content) = none → r.sat = none) ∧
    (∀ b c, blockColor b = some c → satSearch b = none → c.sat = PyNum.q 1) ∧
    (∀ cdl : OtioCdl, cdl.asc_sat = none → (otioColor cdl).sat = PyNum.q 1) := by
  refine ⟨?_, ?_, ?_⟩
  · intro content path r h hsat
    exact (parse_cdl_fields content path r h).2.2.2 hsat
  · intro b c h hsat
    simp only [blockColor, Option.map_eq_some'] at h
    obtain ⟨t, _, hc⟩ := h
    rw [← hc]
    simp [hsat]
  · intro cdl h
    simp [otioColor, ascSatOrOne, h]

/-- C3 (witness): the amended theorem applied to the no-saturation CDL text,
the no-`ASC_SAT` edit block, and an OTIO cdl without `asc_sat`. -/
theorem C3_amended_witness :
    (⟨some ("1.01", "1.0", "0.99"), some ("0.0", "0.0", "0.002"),
        some ("1.0", "1.0", "1.0"), none, "g.cdl"⟩ : CdlResult).sat = none ∧
    (⟨(.s "1.0100", .s "1.0000", .s "0.9900"),
      (.s "0.0000", .s "0.0000", .s "0.0020"),
      (.s "1.0000", .s "1.0000", .s "1.0000"), .q 1⟩ : EdlColor).sat = PyNum.q 1 ∧
    (otioColor ⟨(1, 1, 1), (0, 0, 0), (1, 1, 1), none⟩).sat = PyNum.q 1 :=
  ⟨C3_amended.1 cdlNoSat "g.cdl" _ (by decide) (by decide),
   C3_amended.2.1 blockNoSat _ (by decide) (by decide),
   C3_amended.2.2 ⟨(1, 1, 1), (0, 0, 0), (1, 1, 1), none⟩ rfl⟩

/-- C4 (code evaluated at the failing inputs): the OTIO shot pattern rejects
`"abc_101_010_010_element"` (its second source line is a non-raw string, so
the pattern ends in a literal backspace that ordinary text never contains),
and the regex LOC pattern — whose classes are `[\w]`, which includes the
underscore — extracts the leading-underscore token `"_abc_101_010"` that the
grammar (and the function's own docstring) says must not match. -/
theorem C4_code_evaluation :
    shotSearch "abc_101_010_010_element".toList = none ∧
    (locSearch "* LOC: 01:00:00:00 YELLOW _abc_101_010".toList).map strOfChars =
      some "_abc_101_010" ∧
    ((regex_parse_edl_events edlUnderscoreLoc false).bind fun e =>
      (dictLookup "1" e.events).map (·.loc)) = some "_abc_101_010" :=
  ⟨by decide, by decide, by decide⟩

/-- C5 (counterexample): with three numeric package directories 1, 2, 3 and
the source media directly inside package 2, `get_color_file` scans
`[2, 1, 3]` — the source package first, then the remaining packages sorted
ascending (oldest first) — not the claimed most-recent-first order
`[2, 3, 1]`. -/
theorem C5_counterexample :
    get_color_file_scan_order fsThreePkgs srcThreePkgs =
      some ["/proj/s/incoming/2", "/proj/s/incoming/1", "/proj/s/incoming/3"] ∧
    ((["/proj/s/incoming/2", "/proj/s/incoming/1", "/proj/s/incoming/3"] : List String) ==
      ["/proj/s/incoming/2", "/proj/s/incoming/3", "/proj/s/incoming/1"]) = false :=
  ⟨by decide, by decide⟩

/-- C5: amended: the incoming package directories are scanned in ascending
key order (integer basename when numeric, else the creation date as
`YYYYMMDD`), i.e. oldest first; the package directory of the source media is
moved to the front only when the source path is itself a direct child file
of it (`os.path.isfile(package_path)`), in which case the rest of the scan
remains ascending. -/
theorem C5_amended (fs : FSModel) (sp : String) (ord : List String)
    (h : get_color_file_scan_order fs sp = some ord) :
    (sourceIsDirectFile fs sp = true →
      ord ≠ [] ∧ ord.tail.Pairwise (fun a b => pkgKey fs a ≤ pkgKey fs b)) ∧
    (sourceIsDirectFile fs sp = false →
      ord.Pairwise (fun a b => pkgKey fs a ≤ pkgKey fs b)) := by
  have htot : ∀ a b : String,
      (decide (pkgKey fs a ≤ pkgKey fs b)) = true ∨
      (decide (pkgKey fs b ≤ pkgKey fs a)) = true := by
    intro a b
    rcases Nat.le_total (pkgKey fs a) (pkgKey fs b) with hle | hle
    · exact Or.inl (decide_eq_true hle)
    · exact Or.inr (decide_eq_true hle)
  have htrans : ∀ a b c : String,
      decide (pkgKey fs a ≤ pkgKey fs b) = true →
      decide (pkgKey fs b ≤ pkgKey fs c) = true →
      decide (pkgKey fs a ≤ pkgKey fs c) = true := by
    intro a b c h1 h2
    exact decide_eq_true (Nat.le_trans (of_decide_eq_true h1) (of_decide_eq_true h2))
  have hP : ∀ {l : List String},
      l.Pairwise (fun a b => decide (pkgKey fs a ≤ pkgKey fs b) = true) →
      l.Pairwise (fun a b => pkgKey fs a ≤ pkgKey fs b) :=
    fun hl => hl.imp fun hab => of_decide_eq_true hab
  unfold get_color_file_scan_order at h
  unfold sourceIsDirectFile
  cases hsplit : reSplitIncoming sp.toList with
  | nil => rw [hsplit] at h; cases h
  | cons s0 rest =>
    cases rest with
    | nil => rw [hsplit] at h; cases h
    | cons seg1 rest2 =>
      rw [hsplit] at h
      dsimp only at h ⊢
      by_cases hif : fs.isfile (strOfChars
          (beforeFirstSeq (beforeFirst '/' seg1) sp.toList ++ beforeFirst '/' seg1)) = true
      · rw [if_pos hif] at h
        cases h
        refine ⟨fun _ => ⟨List.cons_ne_nil _ _, ?_⟩, fun hff => by rw [hif] at hff; cases hff⟩
        have hsorted := pairwise_pySortBy htot htrans
          ((pySortBy strLexLe (fs.glob (strOfChars
            (dirnameChars (beforeFirstSeq ('/' :: beforeFirst '/' seg1) sp.toList) ++
              "/*".toList)))).filter fs.isdir)
        simp only [List.tail_cons]
        by_cases hmem : ((pySortBy strLexLe (fs.glob (strOfChars
            (dirnameChars (beforeFirstSeq ('/' :: beforeFirst '/' seg1) sp.toList) ++
              "/*".toList)))).filter fs.isdir).contains
                (strOfChars (dirnameChars (beforeFirstSeq (beforeFirst '/' seg1) sp.toList ++
                  beforeFirst '/' seg1))) = true
        · rw [if_pos hmem]
          exact hP (List.Pairwise.sublist (List.erase_sublist _ _) hsorted)
        · rw [if_neg hmem]
          exact hP hsorted
      · rw [if_neg hif] at h
        cases h
        refine ⟨fun htt => by rw [htt] at hif; exact absurd rfl hif, fun _ => ?_⟩
        exact hP (pairwise_pySortBy htot htrans _)

/-- C5 (witness): the amended theorem applied to the three-package layout:
the scan order behind the inserted source package is ascending. -/
theorem C5_amended_witness :
    (["/proj/s/incoming/1", "/proj/s/incoming/3"] : List String).Pairwise
      (fun a b => pkgKey fsThreePkgs a ≤ pkgKey fsThreePkgs b) :=
  ((C5_amended fsThreePkgs srcThreePkgs
      ["/proj/s/incoming/2", "/proj/s/incoming/1", "/proj/s/incoming/3"] (by decide)).1
    (by decide)).2

/-- C6 (counterexample): the registered extension order is
`ccc, cc, cdl, cube, 3dl, csp, lut, edl` (`LUTS_2D ++ LUTS_3D ++ ["edl"]`),
not the claimed `cc, ccc, csp, cube, 3dl, lut, cdl, edl`. -/
theorem C6_counterexample :
    (COLOR_FILE_EXTS == ["cc", "ccc", "csp", "cube", "3dl", "lut", "cdl", "edl"]) = false := by
  decide

/-- C6: amended: with extensions iterated in the registered order
`ccc, cc, cdl, cube, 3dl, csp, lut, edl`, ties in combined priority go to
the candidate appended to `matches` first during traversal: the winner is
the first match attaining the minimal priority (Python `sorted` is stable),
and the result is a deterministic function of the candidate set. -/
theorem C6_amended (pc : String → Option CdlResult) (pe : String → Option Edl)
    (cf : String → Option (List String)) (item source : String) (ms : List MatchEntry)
    (h : collectMatches pc pe cf item source = some ms) :
    priority_color_file pc pe cf item source = some (firstMinBy matchLe ms) := by
  unfold priority_color_file
  rw [h]
  simp [head?_pySortBy]

/-- C6 (witness): the amended theorem applied to the three-candidate set of
the matcher example. -/
theorem C6_amended_witness :
    priority_color_file pcAllEmpty peAlwaysFalse cfThreeCandidates "shot01" "shotA_cc" =
      some (firstMinBy matchLe
        [⟨5, .fromFile ⟨none, none, none, none, "shotA.ccc"⟩, "shotA.ccc"⟩,
         ⟨4, .fromFile ⟨none, none, none, none, "shotA.cc"⟩, "shotA.cc"⟩,
         ⟨11, .fromFile ⟨none, none, none, none, "shot01.cdl"⟩, "shot01.cdl"⟩]) :=
  C6_amended pcAllEmpty peAlwaysFalse cfThreeCandidates "shot01" "shotA_cc" _ (by decide)

/-- C7 (counterexample): a decode/parse failure in a matching non-EDL
candidate aborts the whole scan: with a `cc` candidate whose `parse_cdl`
raises (an undecodable file) and further well-formed candidates present,
`priority_color_file` propagates the exception instead of returning the best
match among the remaining candidates. -/
theorem C7_counterexample :
    priority_color_file pcFailOnShotCc peAlwaysFalse cfWithFailingCc "shot01" "shot01" =
      none := by
  decide

/-- C7: amended: only EDL candidates enjoy failure tolerance: when
`parse_edl_events` returns the `False` sentinel for an EDL file, that file is
skipped with a warning and the matcher's result is exactly as if the file
were absent; parse failures of matching non-EDL candidates propagate. -/
theorem C7_amended (pc : String → Option CdlResult) (pe : String → Option Edl)
    (cf cf' : String → Option (List String)) (item source : String)
    (l1 l2 : List String) (f : String) (hpe : pe f = none)
    (h1 : cf "edl" = some (l1 ++ f :: l2)) (h2 : cf' "edl" = some (l1 ++ l2))
    (hother : ∀ e, e ≠ "edl" → cf e = cf' e) :
    priority_color_file pc pe cf item source = priority_color_file pc pe cf' item source := by
  have hcm : collectMatches pc pe cf item source = collectMatches pc pe cf' item source :=
    goExts_congr_edl pc pe cf cf' item.toList (lowerChars source.toList)
      (stripColorSuffix (lowerChars source.toList)) l1 l2 f hpe h1 h2 hother COLOR_FILE_EXTS
  unfold priority_color_file
  rw [hcm]

/-- C7 (witness): removing an unparsable EDL candidate leaves the matcher's
result unchanged. -/
theorem C7_amended_witness :
    priority_color_file pcAllEmpty peAlwaysFalse cfWithBadEdl "shot01" "shot01" =
      priority_color_file pcAllEmpty peAlwaysFalse cfWithoutEdl "shot01" "shot01" :=
  C7_amended pcAllEmpty peAlwaysFalse cfWithBadEdl cfWithoutEdl "shot01" "shot01"
    [] [] "/pkg/bad.edl" rfl rfl rfl
    (fun e he => by simp [cfWithBadEdl, cfWithoutEdl, he])

/-- C8 (counterexample): the non-EDL comparison is not case-insensitive in
the item name: `item_name` is compared verbatim against the lowered stem, so
changing only the case of the shot name changes the assigned priorities
(`"Shot01"` finds no match while `"shot01"` is assigned priority 11). -/
theorem C8_counterexample :
    lowerChars "Shot01".toList = lowerChars "shot01".toList ∧
    priority_color_file pcAllEmpty peAlwaysFalse cfItemCaseCdl "Shot01" "zzz" = some none ∧
    (priority_color_file pcAllEmpty peAlwaysFalse cfItemCaseCdl "shot01" "zzz").map
      (Option.map (fun m => m.priority)) = some (some 11) :=
  ⟨by decide, by decide, by decide⟩

/-- C8: amended: the base-priority comparison is case-insensitive in the
source name and in the candidate filename (both are lowered before
comparison), but the item name is compared verbatim: for a fixed item name,
changing only the letter case of `source_name` or of the candidate filename
never changes the assigned combined priority. -/
theorem C8_amended (item src1 src2 f1 f2 : String) (ext : String)
    (hs : lowerChars src1.toList = lowerChars src2.toList)
    (hf : lowerChars f1.toList = lowerChars f2.toList) :
    (nonEdlBasePriority item.toList (lowerChars src1.toList)
        (stripColorSuffix (lowerChars src1.toList)) (candidateStem f1)).map
      (fun p => p + extOffset ext) =
    (nonEdlBasePriority item.toList (lowerChars src2.toList)
        (stripColorSuffix (lowerChars src2.toList)) (candidateStem f2)).map
      (fun p => p + extOffset ext) := by
  rw [hs, candidateStem_congr hf]

/-- C8 (witness): the amended theorem applied to case variants of a source
name and a candidate filename. -/
theorem C8_amended_witness :
    (nonEdlBasePriority "x".toList (lowerChars "ShotA_CC".toList)
        (stripColorSuffix (lowerChars "ShotA_CC".toList)) (candidateStem "ShotA.cc")).map
      (fun p => p + extOffset "cc") =
    (nonEdlBasePriority "x".toList (lowerChars "shota_cc".toList)
        (stripColorSuffix (lowerChars "shota_cc".toList)) (candidateStem "shota.CC")).map
      (fun p => p + extOffset "cc") :=
  C8_amended "x" "ShotA_CC" "shota_cc" "ShotA.cc" "shota.CC" "cc" (by decide) (by decide)

theorem regex_parse_events_eq (text : Chars) (colorOnly : Bool) (e : Edl)
    (h : regex_parse_edl_events text colorOnly = some e) :
    buildEvents colorOnly (findEdits text) [] = some e.events := by
  unfold regex_parse_edl_events at h
  cases hbs : findEdits text with
  | nil => rw [hbs] at h; cases h
  | cons b0 rest =>
    rw [hbs] at h
    dsimp only at h
    cases hfe : pyInt (beforeFirst ' ' b0) with
    | none => rw [hfe] at h; cases h
    | some fe =>
      rw [hfe] at h
      dsimp only at h
      cases hev : buildEvents colorOnly (b0 :: rest) [] with
      | none => rw [hev] at h; cases h
      | some evs =>
        rw [hev] at h
        dsimp only at h
        cases hle : pyInt (beforeFirst ' '
            ((b0 :: rest).getLast (List.cons_ne_nil b0 rest))) with
        | none => rw [hle] at h; cases h
        | some le =>
          rw [hle] at h
          dsimp only at h
          cases h
          rfl

theorem otio_parse_events_eq (tl : OtioTimeline) (colorOnly : Bool) (e : Edl)
    (h : otio_parse_edl_events tl colorOnly = some e) :
    ∃ track, tl.tracks = [track] ∧ (otioBuild colorOnly track 0 []).2 = e.events := by
  unfold otio_parse_edl_events at h
  cases htr : tl.tracks with
  | nil => rw [htr] at h; cases h
  | cons t rest =>
    cases rest with
    | nil =>
      rw [htr] at h
      dsimp only at h
      rcases hb : otioBuild colorOnly t 0 [] with ⟨n, evs⟩
      rw [hb] at h
      dsimp only at h
      cases h
      exact ⟨t, rfl, by rw [hb]⟩
    | cons t2 rest2 =>
      rw [htr] at h
      cases h

/-- C9: with `color_edits_only=True`, both parsers return only events that
carry color keys; with `False`, the regex parser keeps an event under every
parsed block's (normalized) entry number, each stored event being exactly its
block's event (so an event without ASC_SOP is stored with no color keys),
and the OTIO parser keeps exactly one event per clip item, each being the
clip's event (colorless when the clip has no cdl metadata). -/
theorem C9_color_edits_filtering :
    (∀ text e, regex_parse_edl_events text true = some e →
      ∀ kv ∈ e.events, kv.2.color.isSome = true) ∧
    (∀ text e, regex_parse_edl_events text false = some e →
      (∀ b ∈ findEdits text, ∀ k, blockKey b = some k →
        (dictLookup k e.events).isSome = true) ∧
      (∀ kv ∈ e.events, ∃ b, b ∈ findEdits text ∧ blockKey b = some kv.1 ∧
        kv.2 = blockEvent b)) ∧
    (∀ tl e, otio_parse_edl_events tl true = some e →
      ∀ kv ∈ e.events, kv.2.color.isSome = true) ∧
    (∀ track e, otio_parse_edl_events ⟨[track]⟩ false = some e →
      e.events.length = countClips track ∧
      ∀ kv ∈ e.events, ∃ c, OtioItem.clip c ∈ track ∧ kv.2 = otioClipEvent c) := by
  refine ⟨?_, ?_, ?_, ?_⟩
  · intro text e h
    exact buildEvents_true_colored (findEdits text) [] e.events (by simp)
      (regex_parse_events_eq text true e h)
  · intro text e h
    have heq := regex_parse_events_eq text false e h
    refine ⟨(buildEvents_false_keys (findEdits text) [] e.events heq).2, ?_⟩
    intro kv hkv
    rcases buildEvents_provenance false (findEdits text) [] e.events heq kv hkv with
      hin | ⟨b, hb, hkb, hvb⟩
    · cases hin
    · exact ⟨b, hb, hkb, hvb⟩
  · intro tl e h
    rcases otio_parse_events_eq tl true e h with ⟨track, _, hev⟩
    rw [← hev]
    exact otioBuild_true_colored track 0 [] (by simp)
  · intro track e h
    rcases otio_parse_events_eq ⟨[track]⟩ false e h with ⟨track', htr, hev⟩
    have htk : track' = track := by
      simpa using htr.symm
    subst htk
    constructor
    · rw [← hev]
      simpa using (otioBuild_false_len track' 0 [] (by simp [dictKeys])).1
    · intro kv hkv
      rw [← hev] at hkv
      rcases otioBuild_provenance false track' 0 [] kv hkv with hin | ⟨c, hc, hv⟩
      · cases hin
      · exact ⟨c, hc, hv⟩

/-- C9 (witness): the regex key-presence part applied to the two-event
sample EDL: the first block's entry `"1"` is present in the
`color_edits_only=False` result. -/
theorem C9_witness :
    (dictLookup "1"
      [("1", { tape := "AX", clip_name := "shotA_cc", loc := "abc_101_010_010",
               color := some
                 { slope := (.s "1.0100", .s "1.0000", .s "0.9900")
                   offset := (.s "0.0000", .s "0.0000", .s "0.0020")
                   power := (.s "1.0000", .s "1.0000", .s "1.0000")
                   sat := .s "1.05" } }),
       ("2", { tape := "BX", clip_name := "other", loc := "", color := none })]).isSome =
      true :=
  (C9_color_edits_filtering.2.1 sampleEdlText
      { events :=
          [("1", { tape := "AX", clip_name := "shotA_cc", loc := "abc_101_010_010",
                   color := some
                     { slope := (.s "1.0100", .s "1.0000", .s "0.9900")
                       offset := (.s "0.0000", .s "0.0000", .s "0.0020")
                       power := (.s "1.0000", .s "1.0000", .s "1.0000")
                       sat := .s "1.05" } }),
           ("2", { tape := "BX", clip_name := "other", loc := "", color := none })]
        first_entry := 1
        last_entry := 2 } (by decide)).1
    ("001  AX       V     C        00:00:00:00 00:00:01:00 01:00:00:00 01:00:01:00\n" ++
     "* FROM CLIP NAME: shotA_cc\n" ++
     "* ASC_SOP (1.0100 1.0000 0.9900) (0.0000 0.0000 0.0020) (1.0000 1.0000 1.0000)\n" ++
     "* ASC_SAT 1.05\n" ++
     "* LOC: 01:00:00:00 YELLOW abc_101_010_010").toList (by decide) "1" (by decide)

/-- C10: `parse_edl_events` distinguishes its failure modes: an undecodable
file (the adapter raises `UnicodeDecodeError`) yields the `False` sentinel,
while a file that parses to a timeline with a single empty track yields a
successful result with an empty event dictionary, which is distinct from the
sentinel. -/
theorem C10_failure_modes :
    (∀ content colorOnly,
      parse_edl_events OtioOutcome.unicodeError content colorOnly = none) ∧
    (∀ content colorOnly,
      parse_edl_events (OtioOutcome.ok ⟨[[]]⟩) content colorOnly =
        some { events := [], first_entry := 1, last_entry := 0 }) ∧
    (some ({ events := [], first_entry := 1, last_entry := 0 } : Edl) ==
      (none : Option Edl)) = false := by
  refine ⟨fun _ _ => rfl, fun _ _ => rfl, by decide⟩


end AyonHiero
